import Mathlib

/-!
Verification of the adaptive decision / tool-orchestration / learning core of
the Cypress-to-Playwright conversion service.

The Python sources under `backend/agents/` are shallowly embedded below:
pure functions become Lean functions, the SQLite tables and in-memory dicts
become explicit association lists that are threaded through the operations,
Python floats are idealized as exact rationals (`ℚ`), and fallible code
returns `Except PyErr`.  External stdlib collaborators that the repository
merely calls (`hashlib.md5`, `json.loads`) are modelled as function
parameters; everything else is translated from the source files
`agentic_core.py`, `tool_system.py`, `learning_system.py` and
`reflection_system.py`.
-/

/-! ## Python string primitives

The sources use `str.count`, the `in` operator, `str.split`, `str.strip`,
`str.lower` and `'sep'.join`.  These are reimplemented here on `List Char`
with Python's semantics (non-overlapping counting, split producing at least
one piece, etc.). -/

/-- Python `sub in s` (substring membership). -/
def containsSubL (pat : List Char) : List Char → Bool
  | [] => pat.isEmpty
  | c :: rest => pat.isPrefixOf (c :: rest) || containsSubL pat rest

/-- Python `s.count(sub)`: number of non-overlapping occurrences, scanning
left to right.  The fuel argument (initialised to the text length) only
serves structural termination: every step consumes at least one
character. -/
def countSubAux (pat : List Char) : Nat → List Char → Nat
  | 0, _ => 0
  | _, [] => 0
  | fuel + 1, c :: rest =>
    if pat ≠ [] ∧ pat.isPrefixOf (c :: rest) then
      1 + countSubAux pat fuel (List.drop (pat.length - 1) rest)
    else
      countSubAux pat fuel rest

/-- Python `s.count(sub)`. -/
def countSubL (pat s : List Char) : Nat := countSubAux pat s.length s

/-- Python `s.split(c)` for a one-character separator: always returns at
least one (possibly empty) piece. -/
def splitCharL (sep : Char) : List Char → List (List Char)
  | [] => [[]]
  | c :: rest =>
    match splitCharL sep rest with
    | [] => [[c]]
    | h :: t => if c = sep then [] :: h :: t else (c :: h) :: t

/-- Python `s.split(sep)` for a non-empty multi-character separator
(non-overlapping, left to right; fuel as in `countSubAux`). -/
def splitSeqAux (sep : List Char) : Nat → List Char → List (List Char)
  | 0, s => [s]
  | _, [] => [[]]
  | fuel + 1, c :: rest =>
    if sep ≠ [] ∧ sep.isPrefixOf (c :: rest) then
      [] :: splitSeqAux sep fuel (List.drop (sep.length - 1) rest)
    else
      match splitSeqAux sep fuel rest with
      | [] => [[c]]
      | h :: t => (c :: h) :: t

/-- Python `s.split(sep)`. -/
def splitSeqL (sep s : List Char) : List (List Char) := splitSeqAux sep s.length s

/-- Substring membership on `String` (`pat in s` in Python). -/
def containsStr (s pat : String) : Bool := containsSubL pat.data s.data

/-- `s.count(pat)` on `String`. -/
def countStr (s pat : String) : Nat := countSubL pat.data s.data

/-- `s.split('\n')`. -/
def pyLines (s : String) : List String :=
  (splitCharL (Char.ofNat 10) s.data).map List.asString

/-- `s.split(sep)` on `String`. -/
def splitStr (s sep : String) : List String :=
  (splitSeqL sep.data s.data).map List.asString

/-- Python `s.strip()`: whitespace removed from both ends. -/
def pyStrip (s : String) : String :=
  (((s.data.dropWhile Char.isWhitespace).reverse.dropWhile
      Char.isWhitespace).reverse).asString

/-- Python `s.lower()` (ASCII case folding suffices for the repository). -/
def lowerStr (s : String) : String := (s.data.map Char.toLower).asString

/-- Python `sep.join(parts)`. -/
def joinSep (sep : String) (parts : List String) : String :=
  String.intercalate sep parts

/-- Python's single-quote character, used when assembling replacement
strings (`page.locator('...')` and friends). -/
def squo : String := (Char.ofNat 39).toString

/-- Python `l[i]` with an out-of-range default (used only where the source
guards the access). -/
def getStrD (l : List String) (i : Nat) : String := l.getD i ""

/-! ## Dynamic values

Values stored in Python dicts (analysis results, `context.__dict__`,
pattern context conditions) are modelled by a small dynamic type. -/

inductive PyVal where
  | pint (n : ℤ)
  | pbool (b : Bool)
  | pstr (s : String)
  | prat (q : ℚ)
  | pstrList (l : List String)
deriving DecidableEq, Repr

/-- A Python dict with string keys (insertion-ordered association list). -/
abbrev CtxDict := List (String × PyVal)

/-- Python `d.get(k)` (first binding wins, as dict keys are unique). -/
def ctxGet (d : CtxDict) (k : String) : Option PyVal :=
  (d.find? (fun kv => kv.1 == k)).map (·.2)

/-- Python truthiness of a value, as used by `if context.get(...)`. -/
def pyTruthy : PyVal → Bool
  | .pint n => n ≠ 0
  | .pbool b => b
  | .pstr s => s ≠ ""
  | .prat q => q ≠ 0
  | .pstrList l => !l.isEmpty

/-- Exceptions that can escape the embedded code. -/
inductive PyErr where
  | oracle (msg : String)
  | attributeError (name : String)
  | indexError
deriving DecidableEq, Repr

/-- Rendering of an exception (`str(e)` in the source's error paths). -/
def errStr : PyErr → String
  | .oracle msg => msg
  | .attributeError name =>
      "dict object has no attribute " ++ squo ++ name ++ squo
  | .indexError => "list index out of range"

/-! ## `agentic_core.py`: data model -/

/-- `ConversionStrategy` enum. -/
inductive ConversionStrategy where
  | simple
  | complex
  | customCommands
  | formHeavy
  | apiTesting
deriving DecidableEq, Repr

/-- The `.value` string of each strategy. -/
def strategyValue : ConversionStrategy → String
  | .simple => "simple"
  | .complex => "complex"
  | .customCommands => "custom_commands"
  | .formHeavy => "form_heavy"
  | .apiTesting => "api_testing"

/-- `ConversionContext` dataclass. -/
structure ConversionContext where
  code_complexity : ℤ
  has_custom_commands : Bool
  has_api_calls : Bool
  has_form_interactions : Bool
  test_count : ℤ
  previous_attempts : List String
  success_rate : ℚ := 0
deriving DecidableEq, Repr

/-- `context.__dict__`, the plain dict handed to the tool selector and the
learning store (field order of the dataclass). -/
def ctxDictOf (c : ConversionContext) : CtxDict :=
  [("code_complexity", .pint c.code_complexity),
   ("has_custom_commands", .pbool c.has_custom_commands),
   ("has_api_calls", .pbool c.has_api_calls),
   ("has_form_interactions", .pbool c.has_form_interactions),
   ("test_count", .pint c.test_count),
   ("previous_attempts", .pstrList c.previous_attempts),
   ("success_rate", .prat c.success_rate)]

/-- `ConversionResult` dataclass. -/
structure ConversionResult where
  success : Bool
  code : String
  confidence : ℚ
  strategy_used : ConversionStrategy
  issues : List String
  metadata : CtxDict
deriving DecidableEq, Repr

/-! ## `agentic_core.py`: context analysis -/

/-- The analysis prompt sent to the oracle (template text abridged: the spec
scopes out prompt wording; only the identity of the call matters here). -/
def analysisPrompt (code : String) : String :=
  "Analyze this Cypress code and determine its characteristics: " ++ code

/-- `analysis.get(key, default)` for an integer field. -/
def getIntD (d : CtxDict) (k : String) (dflt : ℤ) : ℤ :=
  match ctxGet d k with
  | some (.pint n) => n
  | _ => dflt

/-- `analysis.get(key, default)` for a boolean field. -/
def getBoolD (d : CtxDict) (k : String) (dflt : Bool) : Bool :=
  match ctxGet d k with
  | some (.pbool b) => b
  | _ => dflt

/-- The `ConversionContext` built from a successfully parsed oracle
response (`_analyze_code`, try branch). -/
def contextFromAnalysis (d : CtxDict) : ConversionContext :=
  { code_complexity := getIntD d "complexity_score" 5
    has_custom_commands := getBoolD d "has_custom_commands" false
    has_api_calls := getBoolD d "has_api_calls" false
    has_form_interactions := getBoolD d "has_form_interactions" false
    test_count := getIntD d "test_count" 1
    previous_attempts := [] }

/-- The heuristic fallback context (`_analyze_code`, `except` branch):
complexity is the line count integer-divided by 10, flags are substring
tests, test count is `code.count('it(')`. -/
def fallbackContext (code : String) : ConversionContext :=
  { code_complexity := ((pyLines code).length : ℤ) / 10
    has_custom_commands := containsStr code "cy." && containsStr (lowerStr code) "custom"
    has_api_calls := containsStr code "intercept" || containsStr code "request"
    has_form_interactions := containsStr code ".type(" || containsStr code ".select("
    test_count := (countStr code "it(" : ℤ)
    previous_attempts := [] }

/-- `AgenticConverter._analyze_code`.  The oracle is `llm`, and `json.loads`
is the parameter `jl` (an external stdlib call; `none` models
`json.JSONDecodeError`).  Note the faithful control flow: the `llm` call
itself sits OUTSIDE the `try/except json.JSONDecodeError`, so an oracle
exception propagates. -/
def analyzeCode (llm : String → Except PyErr String)
    (jl : String → Option CtxDict) (code : String) :
    Except PyErr ConversionContext :=
  match llm (analysisPrompt code) with
  | .error e => .error e
  | .ok resp =>
    match jl resp with
    | some d => .ok (contextFromAnalysis d)
    | none => .ok (fallbackContext code)

/-! ## `agentic_core.py`: strategy decision table -/

/-- `AgenticConverter._decide_strategy`: the pure decision table. -/
def decideStrategy (c : ConversionContext) : ConversionStrategy :=
  if c.has_custom_commands then .customCommands
  else if c.has_api_calls ∧ c.code_complexity > 7 then .apiTesting
  else if c.has_form_interactions ∧ c.test_count > 3 then .formHeavy
  else if c.code_complexity > 6 then .complex
  else .simple

/-! ## `agentic_core.py`: plan, execution, memory -/

/-- A plan step (`{"step": ..., "priority": ...}`). -/
structure PlanStep where
  step : String
  priority : String
deriving DecidableEq, Repr

/-- Python `list.insert(i, x)`. -/
def listInsertAt (i : Nat) (x : α) (l : List α) : List α :=
  l.take i ++ [x] ++ l.drop i

/-- `AgenticConverter._create_conversion_plan`. -/
def createConversionPlan (_c : ConversionContext)
    (strategy : ConversionStrategy) : List PlanStep :=
  let basePlan : List PlanStep :=
    [⟨"parse_structure", "high"⟩, ⟨"convert_commands", "high"⟩,
     ⟨"handle_assertions", "medium"⟩, ⟨"optimize_async", "medium"⟩]
  match strategy with
  | .customCommands =>
      listInsertAt 1 ⟨"identify_custom_commands", "critical"⟩ basePlan
        ++ [⟨"create_helper_functions", "high"⟩]
  | .apiTesting =>
      listInsertAt 2 ⟨"convert_intercepts", "critical"⟩ basePlan
        ++ [⟨"add_api_error_handling", "high"⟩]
  | .formHeavy =>
      basePlan ++ [⟨"optimize_form_selectors", "high"⟩,
                   ⟨"add_form_validation", "medium"⟩]
  | _ => basePlan

/-- The per-strategy conversion prompt (`_get_*_prompt`; template text
abridged, see `analysisPrompt`). -/
def strategyPrompt (strategy : ConversionStrategy) (code : String) : String :=
  "Convert this " ++ strategyValue strategy ++ " Cypress code to Playwright: " ++ code

/-- The response clean-up in `_execute_plan`: carve out the fenced block if
the oracle wrapped the code in markdown fences. -/
def cleanupResponse (converted : String) : String :=
  if containsStr converted ("```" ++ "javascript") then
    pyStrip (getStrD (splitStr (getStrD (splitStr converted ("```" ++ "javascript")) 1) "```") 0)
  else if containsStr converted "```" then
    pyStrip (getStrD (splitStr (getStrD (splitStr converted "```") 1) "```") 0)
  else converted

/-- `AgenticConverter._execute_plan`.  The oracle call here IS wrapped in
`try/except`, so an oracle failure is converted into a
`success = false` result instead of propagating. -/
def executePlan (llm : String → Except PyErr String) (code : String)
    (plan : List PlanStep) (c : ConversionContext) : ConversionResult :=
  let strategy := decideStrategy c
  match llm (strategyPrompt strategy code) with
  | .ok converted =>
      { success := true
        code := cleanupResponse converted
        confidence := 17/20
        strategy_used := strategy
        issues := []
        metadata := [("plan_steps", .pint plan.length), ("agentic", .pbool true)] }
  | .error e =>
      { success := false
        code := "// Error during conversion: " ++ errStr e
        confidence := 0
        strategy_used := strategy
        issues := [errStr e]
        metadata := [("error", .pstr (errStr e))] }

/-- One row of `AgenticConverter.self.memory`. -/
structure MemEntry where
  attempts : ℕ
  successes : ℕ
  avg_confidence : ℚ
  common_issues : List String
deriving DecidableEq, Repr

/-- The in-process memory dict of `AgenticConverter`. -/
abbrev CoreMemory := List (String × MemEntry)

/-- Assoc lookup for `CoreMemory`. -/
def memLookup (m : CoreMemory) (k : String) : Option MemEntry :=
  (m.find? (fun kv => kv.1 == k)).map (·.2)

/-- Replace the binding of `k` (present by construction when used). -/
def memReplace (m : CoreMemory) (k : String) (e : MemEntry) : CoreMemory :=
  m.map (fun kv => if kv.1 == k then (k, e) else kv)

/-- `AgenticConverter._update_memory`: running success/confidence stats per
`strategy_complexity_testcount` key, plus deduplicated issue collection. -/
def updateMemory (mem : CoreMemory) (c : ConversionContext)
    (strategy : ConversionStrategy) (result : ConversionResult) : CoreMemory :=
  let key := strategyValue strategy ++ "_" ++ toString c.code_complexity
      ++ "_" ++ toString c.test_count
  let mem' := match memLookup mem key with
    | some _ => mem
    | none => mem ++ [(key, ⟨0, 0, 0, []⟩)]
  match memLookup mem' key with
  | none => mem'
  | some e =>
    let attempts' := e.attempts + 1
    let successes' := e.successes + (if result.success then 1 else 0)
    let avg' := (e.avg_confidence * e.attempts + result.confidence) / attempts'
    let issues' := result.issues.foldl
      (fun acc i => if i ∈ acc then acc else acc ++ [i]) e.common_issues
    memReplace mem' key ⟨attempts', successes', avg', issues'⟩

/-- `AgenticConverter.convert` (step 1 converter): analyze → decide → plan →
execute → learn.  The analysis step can propagate an oracle exception (its
`llm` call is outside any `try`); the execution step cannot. -/
def convertCore (mem : CoreMemory) (llm : String → Except PyErr String)
    (jl : String → Option CtxDict) (code : String) :
    Except PyErr (ConversionResult × CoreMemory) := do
  let c ← analyzeCode llm jl code
  let strategy := decideStrategy c
  let plan := createConversionPlan c strategy
  let result := executePlan llm code plan c
  let mem' := updateMemory mem c strategy result
  return (result, mem')

/-! ## `tool_system.py`: scanner primitives

The tools use `re.findall`/`re.sub` with five fixed patterns.  Each pattern
is deterministic (its quantifiers range over character classes disjoint
from what follows), so each is embedded as a direct scanner.  `findAll` and
`subAll` mirror the engine's left-to-right, non-overlapping scan; the fuel
argument (initialised to the text length) only serves termination — every
match consumes at least one character. -/

/-- Python `\w` (ASCII, which covers the repository's inputs). -/
def isWordChar (c : Char) : Bool :=
  c.isAlpha || c.isDigit || c = Char.ofNat 95

/-- The single-quote and double-quote characters (`['\"]` classes). -/
def squoChar : Char := Char.ofNat 39

/-- Double quote. -/
def dquoChar : Char := Char.ofNat 34

/-- Match a literal, returning the remainder. -/
def matchSeq (pat s : List Char) : Option (List Char) :=
  if pat.isPrefixOf s then some (s.drop pat.length) else none

/-- Match `\w+` (greedy, at least one character). -/
def wordRun1 (s : List Char) : Option (List Char × List Char) :=
  let w := s.takeWhile isWordChar
  if w.isEmpty then none else some (w, s.drop w.length)

/-- Match one quote character of either kind (`['\"]`). -/
def takeQuote (s : List Char) : Option (List Char) :=
  match s with
  | c :: rest => if c = squoChar ∨ c = dquoChar then some rest else none
  | [] => none

/-- Match `['\"]([^'\"]+)['\"]` returning the quoted body. -/
def quotedBody (s : List Char) : Option (List Char × List Char) := do
  let r1 ← takeQuote s
  let body := r1.takeWhile (fun c => ¬(c = squoChar ∨ c = dquoChar))
  if body.isEmpty then none else
  let r2 ← takeQuote (r1.drop body.length)
  pure (body, r2)

/-- Match `LIT['\"]([^'\"]+)['\"]` (e.g. `describe\(['\"]([^'\"]+)['\"]`). -/
def quotedAfter (pre : List Char) (s : List Char) : Option (List Char × List Char) := do
  let r1 ← matchSeq pre s
  quotedBody r1

/-- `re.findall`-style scan: left to right, skipping past each match. -/
def findAllAux (m : List Char → Option (α × List Char)) :
    Nat → List Char → List α
  | 0, _ => []
  | _, [] => []
  | fuel + 1, c :: rest =>
    match m (c :: rest) with
    | some (a, remainder) => a :: findAllAux m fuel remainder
    | none => findAllAux m fuel rest

/-- `re.findall pat s` for a deterministic pattern scanner `m`. -/
def findAll (m : List Char → Option (α × List Char)) (s : List Char) : List α :=
  findAllAux m s.length s

/-- `re.sub`-style scan: each match is replaced, the rest copied. -/
def subAllAux (m : List Char → Option (List Char × List Char)) :
    Nat → List Char → List Char
  | 0, s => s
  | _, [] => []
  | fuel + 1, c :: rest =>
    match m (c :: rest) with
    | some (rep, remainder) => rep ++ subAllAux m fuel remainder
    | none => c :: subAllAux m fuel rest

/-- `re.sub pat rep s` for a scanner returning the replacement text. -/
def subAll (m : List Char → Option (List Char × List Char)) (s : List Char) :
    List Char :=
  subAllAux m s.length s

/-- `r"cy\.(\w+)"` (pattern analyzer's command extraction). -/
def cyWordM (s : List Char) : Option (List Char × List Char) := do
  let r1 ← matchSeq "cy.".data s
  wordRun1 r1

/-- `r"cy\.(\w+)\("` (AST tool's command extraction). -/
def cyCmdM (s : List Char) : Option (List Char × List Char) := do
  let r1 ← matchSeq "cy.".data s
  let (w, r2) ← wordRun1 r1
  let r3 ← matchSeq "(".data r2
  pure (w, r3)

/-- `r"cy\.\w+\([^)]*\)\.\w+"` (command-chain detection). -/
def chainM (s : List Char) : Option (Unit × List Char) := do
  let r1 ← matchSeq "cy.".data s
  let (_, r2) ← wordRun1 r1
  let r3 ← matchSeq "(".data r2
  let body := r3.takeWhile (fun c => c ≠ ')')
  let r4 ← matchSeq ").".data (r3.drop body.length)
  let (_, r5) ← wordRun1 r4
  pure ((), r5)

/-! ## `tool_system.py`: the four tools -/

/-- The registered tools (`AgenticToolSelector.self.tools`, in order). -/
inductive RTool where
  | ast
  | regex
  | pattern
  | validator
deriving DecidableEq, Repr

/-- `ToolType.value` of each tool. -/
def toolTypeValue : RTool → String
  | .ast => "ast_parser"
  | .regex => "regex_matcher"
  | .pattern => "pattern_analyzer"
  | .validator => "syntax_validator"

/-- `ASTParserTool.can_handle`. -/
def canHandleAst (code : String) : ℚ :=
  let describeCount := countStr code "describe("
  let nestedIts := countStr code "  it("
  if describeCount > 2 ∨ nestedIts > 0 then 9/10
  else if describeCount > 0 then 7/10
  else 3/10

/-- `RegexMatcherTool.can_handle`. -/
def canHandleRegex (code : String) : ℚ :=
  let cypressCommands := ((pyLines code).filter (fun l => containsStr l "cy.")).length
  if cypressCommands < 5 ∧ ¬ (containsStr code "describe(" = true) then 4/5
  else if cypressCommands < 10 then 3/5
  else 1/5

/-- `PatternAnalyzerTool.can_handle`. -/
def canHandlePattern (code : String) : ℚ :=
  let hasIntercepts := containsStr code "cy.intercept"
  let hasCustomCommands := containsStr code "cy.login" || containsStr code "cy.custom"
  let hasComplexChains := containsStr code ".should(" && containsStr code ".and("
  if hasIntercepts || hasCustomCommands || hasComplexChains then 9/10 else 2/5

/-- `SyntaxValidatorTool.can_handle`: the constant 0.8. -/
def canHandleValidator (_code : String) : ℚ := 4/5

/-- `can_handle` dispatch (none of the four reads the context argument). -/
def canHandle (t : RTool) (code : String) (_ctx : CtxDict) : ℚ :=
  match t with
  | .ast => canHandleAst code
  | .regex => canHandleRegex code
  | .pattern => canHandlePattern code
  | .validator => canHandleValidator code

/-- The result dict a tool execution returns (fields across the four tools;
unneeded fields default). -/
structure ToolExecResult where
  success : Bool
  convertedCode : Option String := none
  suggestedStrategy : Option String := none
  issues : List String := []
  describes : List String := []
  its : List String := []
  commands : List String := []
  customCommands : List String := []
  complexityScore : ℕ := 0
  apiIntercepts : ℕ := 0
  commandChains : ℕ := 0
  customCommandCount : ℕ := 0
  assertionCount : ℕ := 0
  patternsApplied : ℕ := 0
  toolUsed : String
  toolType : Option String := none
deriving DecidableEq, Repr

/-- The five built-in command names treated as non-custom. -/
def baseCyCommands : List String := ["get", "type", "click", "should", "visit"]

/-- `ASTParserTool.execute`. -/
def astExecute (code : String) (_ctx : CtxDict) : ToolExecResult :=
  let describes := (findAll (quotedAfter "describe(".data) code.data).map List.asString
  let its := (findAll (quotedAfter "it(".data) code.data).map List.asString
  let commands := (findAll cyCmdM code.data).map List.asString
  { success := true
    describes := describes
    its := its
    commands := commands
    customCommands := commands.filter (fun c => c ∉ baseCyCommands)
    complexityScore := describes.length * 2 + its.length
    toolUsed := "AST_PARSER" }

/-- `re.sub` scanner for `cy\.get\(['\"]([^'\"]+)['\"]\)`. -/
def cyGetSub (s : List Char) : Option (List Char × List Char) := do
  let (body, r1) ← quotedAfter "cy.get(".data s
  let r2 ← matchSeq ")".data r1
  pure (("page.locator(" ++ squo).data ++ body ++ (squo ++ ")").data, r2)

/-- `re.sub` scanner for `\.type\(['\"]([^'\"]+)['\"]\)`. -/
def typeSub (s : List Char) : Option (List Char × List Char) := do
  let (body, r1) ← quotedAfter ".type(".data s
  let r2 ← matchSeq ")".data r1
  pure ((".fill(" ++ squo).data ++ body ++ (squo ++ ")").data, r2)

/-- `re.sub` scanner for `\.click\(\)` (replacement is identical text). -/
def clickSub (s : List Char) : Option (List Char × List Char) := do
  let r1 ← matchSeq ".click()".data s
  pure (".click()".data, r1)

/-- `re.sub` scanner for `cy\.visit\(['\"]([^'\"]+)['\"]\)`. -/
def visitSub (s : List Char) : Option (List Char × List Char) := do
  let (body, r1) ← quotedAfter "cy.visit(".data s
  let r2 ← matchSeq ")".data r1
  pure (("await page.goto(" ++ squo).data ++ body ++ (squo ++ ")").data, r2)

/-- `re.sub` scanner for
`\.should\(['\"]contain['\"]\s*,\s*['\"]([^'\"]+)['\"]\)`. -/
def shouldContainSub (s : List Char) : Option (List Char × List Char) := do
  let r1 ← matchSeq ".should(".data s
  let r2 ← takeQuote r1
  let r3 ← matchSeq "contain".data r2
  let r4 ← takeQuote r3
  let r5 ← matchSeq ",".data (r4.dropWhile Char.isWhitespace)
  let (body, r6) ← quotedBody (r5.dropWhile Char.isWhitespace)
  let r7 ← matchSeq ")".data r6
  pure ((".toContainText(" ++ squo).data ++ body ++ (squo ++ ")").data, r7)

/-- `RegexMatcherTool.execute`: the five substitutions, applied in order. -/
def regexExecute (code : String) (_ctx : CtxDict) : ToolExecResult :=
  let c1 := subAll cyGetSub code.data
  let c2 := subAll typeSub c1
  let c3 := subAll clickSub c2
  let c4 := subAll visitSub c3
  let c5 := subAll shouldContainSub c4
  { success := true
    convertedCode := some c5.asString
    patternsApplied := 5
    toolUsed := "REGEX_MATCHER" }

/-- `PatternAnalyzerTool.execute`: pattern counts and the suggested
strategy. -/
def patternExecute (code : String) (_ctx : CtxDict) : ToolExecResult :=
  let apiIntercepts := countStr code "cy.intercept"
  let commandChains := (findAll chainM code.data).length
  let customCount :=
    (((findAll cyWordM code.data).map List.asString).filter
      (fun c => c ∉ baseCyCommands)).length
  let assertions := countStr code ".should("
  let suggested :=
    if apiIntercepts > 0 then "api_testing_focused"
    else if customCount > 2 then "custom_command_heavy"
    else if commandChains > assertions then "interaction_heavy"
    else "assertion_heavy"
  { success := true
    apiIntercepts := apiIntercepts
    commandChains := commandChains
    customCommandCount := customCount
    assertionCount := assertions
    suggestedStrategy := some suggested
    toolUsed := "PATTERN_ANALYZER" }

/-- `SyntaxValidatorTool.execute`: issue list and success iff no issues. -/
def validatorExecute (code : String) (_ctx : CtxDict) : ToolExecResult :=
  let issues :=
    (if containsStr code "await" ∧ ¬ (containsStr code "async" = true) then
      ["Missing " ++ squo ++ "async" ++ squo ++ " keyword in function definition"] else [])
    ++ (if containsStr code "page.locator" ∧ ¬ (containsStr code "await" = true) then
      ["Missing " ++ squo ++ "await" ++ squo ++ " before page.locator calls"] else [])
    ++ (if containsStr code "cy." then ["Unconverted Cypress commands found"] else [])
    ++ (if containsStr code "expect(" ∧ ¬ (containsStr code "import" = true) then
      ["Missing Playwright test imports"] else [])
  { success := issues.isEmpty
    issues := issues
    toolUsed := "SYNTAX_VALIDATOR" }

/-- `execute` dispatch. -/
def toolExecute (t : RTool) (code : String) (ctx : CtxDict) : ToolExecResult :=
  match t with
  | .ast => astExecute code ctx
  | .regex => regexExecute code ctx
  | .pattern => patternExecute code ctx
  | .validator => validatorExecute code ctx

/-! ## `tool_system.py`: selection and orchestration -/

/-- One row of `AgenticToolSelector.self.tool_performance`. -/
structure PerfEntry where
  attempts : ℕ
  successes : ℕ
  success_rate : ℚ
deriving DecidableEq, Repr

/-- The in-memory tool-performance dict, keyed by
`f"{tool_type}_{context.get('complexity', 'unknown')}"`. -/
abbrev PerfTable := List (String × PerfEntry)

/-- Assoc lookup for `PerfTable`. -/
def perfLookup (p : PerfTable) (k : String) : Option PerfEntry :=
  (p.find? (fun kv => kv.1 == k)).map (·.2)

/-- Replace the binding of `k`. -/
def perfReplace (p : PerfTable) (k : String) (e : PerfEntry) : PerfTable :=
  p.map (fun kv => if kv.1 == k then (k, e) else kv)

/-- Rendering of a dict value inside an f-string (only reached when the
context actually has a `"complexity"` key). -/
def pyValStr : PyVal → String
  | .pint n => toString n
  | .pbool b => if b then "True" else "False"
  | .pstr s => s
  | .prat q => toString q
  | .pstrList l => joinSep ", " l

/-- The performance-table key
`f"{tool.tool_type.value}_{context.get('complexity', 'unknown')}"`:
note it reads the single key `"complexity"`, not a hash of the whole
context. -/
def toolKey (t : RTool) (ctx : CtxDict) : String :=
  toolTypeValue t ++ "_" ++
    (match ctxGet ctx "complexity" with
     | some v => pyValStr v
     | none => "unknown")

/-- `self.tool_performance.get(key, {}).get('success_rate', 0.5)`. -/
def histRate (perf : PerfTable) (t : RTool) (ctx : CtxDict) : ℚ :=
  match perfLookup perf (toolKey t ctx) with
  | some e => e.success_rate
  | none => 1/2

/-- The registered tool list, in registration order. -/
def allTools : List RTool := [.ast, .regex, .pattern, .validator]

/-- The weighted scores `confidence * 0.7 + historical_success * 0.3`. -/
def toolScores (perf : PerfTable) (code : String) (ctx : CtxDict) :
    List (RTool × ℚ) :=
  allTools.map (fun t => (t, canHandle t code ctx * (7/10) + histRate perf t ctx * (3/10)))

/-- Stable descending insertion (earlier elements stay before equal-scored
later ones, matching Python's stable `sort(..., reverse=True)`). -/
def insertScoredDesc (x : RTool × ℚ) : List (RTool × ℚ) → List (RTool × ℚ)
  | [] => [x]
  | y :: ys => if x.2 ≥ y.2 then x :: y :: ys else y :: insertScoredDesc x ys

/-- Stable descending sort by score. -/
def sortScoredDesc : List (RTool × ℚ) → List (RTool × ℚ)
  | [] => []
  | x :: xs => insertScoredDesc x (sortScoredDesc xs)

/-- The complementary-tool loop of `select_tools`.  When a score exceeds
0.6 the source reads `selected_tools[0]` with no emptiness guard — that
unguarded access is modelled by the `.error .indexError` branch. -/
def buildSelected : List (RTool × ℚ) → List RTool → Except PyErr (List RTool)
  | [], sel => .ok sel
  | (t, s) :: rest, sel =>
    if s > 3/5 then
      match sel.head? with
      | none => .error .indexError
      | some t0 =>
        if toolTypeValue t ≠ toolTypeValue t0 then
          let sel' := sel ++ [t]
          if 3 ≤ sel'.length then .ok sel' else buildSelected rest sel'
        else buildSelected rest sel
    else buildSelected rest sel

/-- `AgenticToolSelector.select_tools`. -/
def selectTools (perf : PerfTable) (code : String) (ctx : CtxDict) :
    Except PyErr (List RTool) :=
  match sortScoredDesc (toolScores perf code ctx) with
  | [] => .error .indexError
  | top :: rest =>
    let sel0 := if top.2 > 1/2 then [top.1] else []
    match buildSelected rest sel0 with
    | .error e => .error e
    | .ok sel =>
      .ok (if RTool.validator ∈ sel then sel else sel ++ [RTool.validator])

/-- `AgenticToolSelector._update_tool_performance`: count-weighted running
success rate under the same key `select_tools` reads. -/
def updateToolPerformance (perf : PerfTable) (t : RTool) (ctx : CtxDict)
    (success : Bool) : PerfTable :=
  let key := toolKey t ctx
  let perf' := match perfLookup perf key with
    | some _ => perf
    | none => perf ++ [(key, ⟨0, 0, 1/2⟩)]
  match perfLookup perf' key with
  | none => perf'
  | some e =>
    let attempts' := e.attempts + 1
    let successes' := e.successes + (if success then 1 else 0)
    perfReplace perf' key ⟨attempts', successes', (successes' : ℚ) / (attempts' : ℚ)⟩

/-- Aggregate returned by `execute_tools`. -/
structure ToolRunSummary where
  finalCode : String
  toolResults : List ToolExecResult
  toolsUsed : ℕ
  overallSuccess : Bool
deriving DecidableEq, Repr

/-- The execution loop of `execute_tools`: each tool runs on the current
text (a tool's `converted_code`, when present, feeds the next tool), each
result is tagged with `result['tool_type'] = tool.tool_type.value` (the
LOWER-CASE enum value), and the performance table is updated after each
execution.  The source's per-tool `try/except` is vacuous here because the
embedded executes are total. -/
def runSelected (ctx : CtxDict) :
    List RTool → String → PerfTable → List ToolExecResult × String × PerfTable
  | [], current, perf => ([], current, perf)
  | t :: ts, current, perf =>
    let r0 := toolExecute t current ctx
    let r := { r0 with toolType := some (toolTypeValue t) }
    let current' := match r0.convertedCode with
      | some newCode => newCode
      | none => current
    let perf' := updateToolPerformance perf t ctx r0.success
    let (rs, fc, pf) := runSelected ctx ts current' perf'
    (r :: rs, fc, pf)

/-- `AgenticToolSelector.execute_tools`. -/
def executeTools (perf : PerfTable) (code : String) (ctx : CtxDict) :
    Except PyErr (ToolRunSummary × PerfTable) :=
  match selectTools perf code ctx with
  | .error e => .error e
  | .ok sel =>
    let (rs, fc, pf) := runSelected ctx sel code perf
    .ok ({ finalCode := fc
           toolResults := rs
           toolsUsed := sel.length
           overallSuccess := rs.all (·.success) }, pf)

/-! ## `tool_system.py`: strategy decision with tool insights

`EnhancedAgenticConverter.convert` builds
`enhanced_context = {**context.__dict__, "tool_insights": ...}` — a plain
dict — and `_decide_strategy_with_tools` hands that dict to the inherited
`_decide_strategy`, which accesses it with ATTRIBUTE syntax
(`context.has_custom_commands`).  Attribute access on a dict raises
`AttributeError`; `PyObj` and `getattrB` model exactly that dynamic
distinction. -/

/-- A value that `_decide_strategy` may receive: the dataclass (step-1
path) or a plain dict (the enhanced path's fallback). -/
inductive PyObj where
  | ctxObj (c : ConversionContext)
  | dictObj (d : CtxDict)
deriving DecidableEq, Repr

/-- Python attribute access: defined on the dataclass fields, raising
`AttributeError` on a dict. -/
def getattrB : PyObj → String → Except PyErr PyVal
  | .ctxObj c, "code_complexity" => .ok (.pint c.code_complexity)
  | .ctxObj c, "has_custom_commands" => .ok (.pbool c.has_custom_commands)
  | .ctxObj c, "has_api_calls" => .ok (.pbool c.has_api_calls)
  | .ctxObj c, "has_form_interactions" => .ok (.pbool c.has_form_interactions)
  | .ctxObj c, "test_count" => .ok (.pint c.test_count)
  | .ctxObj _, n => .error (.attributeError n)
  | .dictObj _, n => .error (.attributeError n)

/-- Python `v > k` for the complexity/test-count comparisons. -/
def pyGtInt (v : PyVal) (k : ℤ) : Bool :=
  match v with
  | .pint n => n > k
  | _ => false

/-- `_decide_strategy` evaluated with dynamic attribute access (the code
path taken when the enhanced converter falls back to the table with its
dict argument). -/
def decideStrategyDyn (o : PyObj) : Except PyErr ConversionStrategy := do
  let v1 ← getattrB o "has_custom_commands"
  if pyTruthy v1 then return .customCommands else
  let v2 ← getattrB o "has_api_calls"
  let b2 ← if pyTruthy v2 then do
      let cx ← getattrB o "code_complexity"
      pure (pyGtInt cx 7)
    else pure false
  if b2 then return .apiTesting else
  let v3 ← getattrB o "has_form_interactions"
  let b3 ← if pyTruthy v3 then do
      let tc ← getattrB o "test_count"
      pure (pyGtInt tc 3)
    else pure false
  if b3 then return .formHeavy else
  let cx ← getattrB o "code_complexity"
  if pyGtInt cx 6 then return .complex else
  return .simple

/-- The override scan of `_decide_strategy_with_tools`: the first result
whose `tool_type` equals the literal `"PATTERN_ANALYZER"` and whose
suggestion is one of the two recognized values decides the strategy. -/
def findOverride (results : List ToolExecResult) : Option ConversionStrategy :=
  results.findSome? (fun r =>
    if r.toolType = some "PATTERN_ANALYZER" then
      match r.suggestedStrategy with
      | some "api_testing_focused" => some .apiTesting
      | some "custom_command_heavy" => some .customCommands
      | _ => none
    else none)

/-- `EnhancedAgenticConverter._decide_strategy_with_tools`: the override
scan, then the fallback `super()._decide_strategy(enhanced_context)` — the
argument being the enhanced-context DICT (`tool_insights` entry elided
from the dict model; attribute access fails on any dict regardless of its
entries). -/
def decideStrategyWithTools (baseCtx : CtxDict) (insights : ToolRunSummary) :
    Except PyErr ConversionStrategy :=
  match findOverride insights.toolResults with
  | some s => .ok s
  | none => decideStrategyDyn (.dictObj baseCtx)

/-- `EnhancedAgenticConverter.convert` (step 2 converter): analyze, run the
tool pipeline, decide with tool insights, plan, execute.  (This override
does not call `_update_memory`; the nested `tool_analysis` metadata dict
is carried in the returned summary.) -/
def enhancedConvert (perf : PerfTable) (llm : String → Except PyErr String)
    (jl : String → Option CtxDict) (code : String) :
    Except PyErr (ConversionResult × ToolRunSummary × PerfTable) := do
  let c ← analyzeCode llm jl code
  let (summary, perf') ← executeTools perf code (ctxDictOf c)
  let strategy ← decideStrategyWithTools (ctxDictOf c) summary
  let plan := createConversionPlan c strategy
  let result := executePlan llm code plan c
  let result' := { result with
    metadata := result.metadata ++
      [("tools_used", .pint summary.toolsUsed),
       ("enhanced_agentic", .pbool true)] }
  return (result', summary, perf')

/-! ## `learning_system.py`: case memory -/

/-- `ConversionCase` dataclass / `conversion_cases` table row. -/
structure ConversionCase where
  input_hash : String
  input_code : String
  output_code : String
  strategy_used : String
  success : Bool
  confidence : ℚ
  execution_time : ℚ
  context : CtxDict
  feedback_score : Option ℚ := none
  timestamp : String
deriving DecidableEq, Repr

/-- The `conversion_cases` table (`input_hash` carries a UNIQUE
constraint). -/
abbrev CaseDb := List ConversionCase

/-- `MemoryStore.store_conversion_case`: `INSERT OR REPLACE` keyed by the
unique `input_hash` — any conflicting row is deleted and the new row
inserted. -/
def storeConversionCase (db : CaseDb) (c : ConversionCase) : CaseDb :=
  db.filter (fun x => x.input_hash ≠ c.input_hash) ++ [c]

/-- The `ConversionCase` built at the end of
`LearningAgenticConverter.convert`: the hash is
`hashlib.md5(input_code.encode()).hexdigest()[:16]` — a pure function of
the input text alone (`md5hex16` stands for that external stdlib call). -/
def mkConversionCase (md5hex16 : String → String) (inputCode outputCode strategy : String)
    (success : Bool) (confidence executionTime : ℚ) (ctx : CtxDict)
    (timestamp : String) : ConversionCase :=
  { input_hash := md5hex16 inputCode
    input_code := inputCode
    output_code := outputCode
    strategy_used := strategy
    success := success
    confidence := confidence
    execution_time := executionTime
    context := ctx
    timestamp := timestamp }

/-! ## `learning_system.py`: strategy performance -/

/-- One row of the `strategy_performance` table. -/
structure SPRow where
  attempts : ℕ
  successes : ℕ
  avg_confidence : ℚ
  avg_execution_time : ℚ
  last_updated : String
deriving DecidableEq, Repr

/-- The `strategy_performance` table, keyed by the composite primary key
`(strategy, context_hash)`. -/
abbrev SPTable := List ((String × String) × SPRow)

/-- `SELECT ... WHERE strategy = ? AND context_hash = ?`. -/
def spLookup : SPTable → String × String → Option SPRow
  | [], _ => none
  | (k, r) :: rest, key => if k = key then some r else spLookup rest key

/-- `UPDATE ... WHERE strategy = ? AND context_hash = ?`. -/
def spReplace : SPTable → String × String → SPRow → SPTable
  | [], _, _ => []
  | (k, r) :: rest, key, nr =>
    if k = key then (key, nr) :: spReplace rest key nr
    else (k, r) :: spReplace rest key nr

/-- `MemoryStore.update_strategy_performance`: the bucket key is
`md5(json.dumps(context, sort_keys=True))[:16]` — `ctxHash` stands for
that deterministic external computation — and the row is updated with the
count-weighted running means. -/
def updateStrategyPerformance (ctxHash : CtxDict → String) (tbl : SPTable)
    (strategy : String) (ctx : CtxDict) (success : Bool)
    (confidence executionTime : ℚ) (now : String) : SPTable :=
  let key := (strategy, ctxHash ctx)
  match spLookup tbl key with
  | some r =>
    let newAttempts := r.attempts + 1
    let newSuccesses := r.successes + (if success then 1 else 0)
    let newAvgConf := (r.avg_confidence * r.attempts + confidence) / newAttempts
    let newAvgTime := (r.avg_execution_time * r.attempts + executionTime) / newAttempts
    spReplace tbl key ⟨newAttempts, newSuccesses, newAvgConf, newAvgTime, now⟩
  | none =>
    tbl ++ [(key, ⟨1, if success then 1 else 0, confidence, executionTime, now⟩)]

/-- One `update_strategy_performance` call for the fixed
`(strategy, context)` pair, taking the per-call arguments
`(success, confidence, execution_time, now)` as a tuple. -/
def spStep (ctxHash : CtxDict → String) (strategy : String) (ctx : CtxDict)
    (tbl : SPTable) (u : Bool × ℚ × ℚ × String) : SPTable :=
  updateStrategyPerformance ctxHash tbl strategy ctx u.1 u.2.1 u.2.2.1 u.2.2.2

/-! ## `learning_system.py`: pattern learner -/

/-- `LearningPattern` dataclass. -/
structure LearningPattern where
  pattern_id : String
  input_pattern : String
  output_pattern : String
  success_rate : ℚ
  usage_count : ℕ
  avg_confidence : ℚ
  context_conditions : CtxDict
  last_updated : String
deriving DecidableEq, Repr

/-- The signature-token extraction inside `find_matching_pattern`: the
sequence of recognized operation kinds over the stripped lines. -/
def extractKeyPatterns (inputCode : String) : List String :=
  (pyLines (pyStrip inputCode)).filterMap (fun ln =>
    let l := pyStrip ln
    if containsStr l "cy." then
      if containsStr l "cy.get(" then some "GET_ELEMENT"
      else if containsStr l "cy.type(" then some "TYPE_TEXT"
      else if containsStr l "cy.click(" then some "CLICK_ELEMENT"
      else if containsStr l "cy.should(" then some "ASSERTION"
      else none
    else none)

/-- `input_pattern = '->'.join(key_patterns)`. -/
def inputPatternOf (inputCode : String) : String :=
  joinSep "->" (extractKeyPatterns inputCode)

/-- The signature SET of a pattern string (`set(p.split('->'))`). -/
def sigSet (p : String) : Finset String := (splitStr p "->").toFinset

/-- Jaccard similarity of two finite string sets (ℚ-valued; the use sites
have non-empty sets, so the denominator is positive there). -/
def jaccardQ (a b : Finset String) : ℚ :=
  ((a ∩ b).card : ℚ) / ((a ∪ b).card : ℚ)

/-- The fraction of a pattern's context conditions matched by the context
(0 when the pattern has no conditions). -/
def condFrac (p : LearningPattern) (ctx : CtxDict) : ℚ :=
  if p.context_conditions = [] then 0
  else ((p.context_conditions.filter
          (fun kv => ctxGet ctx kv.1 = some kv.2)).length : ℚ)
        / (p.context_conditions.length : ℚ)

/-- `PatternLearner._calculate_pattern_match_score`. -/
def calculatePatternMatchScore (inputPattern : String) (p : LearningPattern)
    (ctx : CtxDict) : ℚ :=
  let inputSteps := sigSet inputPattern
  let learnedSteps := sigSet p.input_pattern
  if inputSteps = ∅ ∨ learnedSteps = ∅ then 0
  else
    let patternSimilarity := jaccardQ inputSteps learnedSteps
    let contextSimilarity := condFrac p ctx
    patternSimilarity * (7/10) + contextSimilarity * (3/10)

/-- The best-match fold of `find_matching_pattern`: strict improvement over
the running best AND strictly above the 0.7 threshold. -/
def bestMatchFold (score : LearningPattern → ℚ)
    (patterns : List LearningPattern) : Option LearningPattern × ℚ :=
  patterns.foldl
    (fun best p =>
      let s := score p
      if s > best.2 ∧ s > 7/10 then (some p, s) else best)
    (none, 0)

/-- `PatternLearner.find_matching_pattern`. -/
def findMatchingPattern (patterns : List LearningPattern) (inputCode : String)
    (ctx : CtxDict) : Option LearningPattern :=
  (bestMatchFold
    (fun p => calculatePatternMatchScore (inputPatternOf inputCode) p ctx)
    patterns).1

/-- The guard at `learning_system.py:315`: a matched pattern is used for the
conversion only when `matching_pattern.success_rate > 0.8`. -/
def usesLearnedPattern (m : Option LearningPattern) : Bool :=
  match m with
  | some p => p.success_rate > 4/5
  | none => false

/-! ## `reflection_system.py` -/

/-- `ReflectionTrigger` enum. -/
inductive ReflectionTrigger where
  | failureThreshold
  | periodic
  | confidenceDrop
  | userFeedback
  | patternMismatch
deriving DecidableEq, Repr

/-- Python `l[-n:]`. -/
def lastN (n : ℕ) (l : List α) : List α := l.drop (l.length - n)

/-- `SelfReflectionEngine._count_recent_failures`: failures among the last
10 cases. -/
def countRecentFailures (history : List ConversionCase) : ℕ :=
  ((lastN 10 history).filter (fun c => !c.success)).length

/-- Mean confidence of a window. -/
def meanConfidence (window : List ConversionCase) : ℚ :=
  ((window.map (·.confidence)).sum) / (window.length : ℚ)

/-- `SelfReflectionEngine._analyze_confidence_trend`: 0 until 20 cases
exist, then mean of the last 10 minus mean of the prior 10
(`history[-20:-10]`). -/
def analyzeConfidenceTrend (history : List ConversionCase) : ℚ :=
  if history.length < 20 then 0
  else
    let recent := lastN 10 history
    let older := (history.drop (history.length - 20)).take 10
    meanConfidence recent - meanConfidence older

/-- `SelfReflectionEngine._check_negative_feedback`: at least two feedback
scores below 3 among the last 10 cases. -/
def checkNegativeFeedback (history : List ConversionCase) : Bool :=
  ((lastN 10 history).filter (fun c =>
    match c.feedback_score with
    | some f => decide (f < 3)
    | none => false)).length ≥ 2

/-- `SelfReflectionEngine.should_reflect`: the four triggers, checked in
source order — failure threshold, confidence drop, periodic, user
feedback — first true wins. -/
def shouldReflect (history : List ConversionCase) :
    Bool × Option ReflectionTrigger :=
  if countRecentFailures history ≥ 3 then
    (true, some .failureThreshold)
  else if analyzeConfidenceTrend history < -(1/5) then
    (true, some .confidenceDrop)
  else if history.length % 50 = 0 ∧ history.length > 0 then
    (true, some .periodic)
  else if checkNegativeFeedback history then
    (true, some .userFeedback)
  else
    (false, none)

/-! ## Concrete sample inputs used by the claim theorems and witnesses -/

/-- An API-testing input: its `cy.intercept` makes the pattern analyzer
suggest `api_testing_focused`. -/
def c2code : String := "cy.intercept(GET, x)"

/-- The context dict the enhanced pipeline passes alongside `c2code` when
the oracle response is unparseable (heuristic-fallback context). -/
def c2ctx : CtxDict := ctxDictOf (fallbackContext c2code)

/-- A history case with the given success flag, confidence and feedback. -/
def sampleCase (b : Bool) (conf : ℚ) (fb : Option ℚ) : ConversionCase :=
  { input_hash := "h", input_code := "", output_code := "",
    strategy_used := "simple", success := b, confidence := conf,
    execution_time := 1, context := [], feedback_score := fb,
    timestamp := "t" }

/-- Ten recent cases with exactly three failures. -/
def historyThreeFailures : List ConversionCase :=
  List.replicate 7 (sampleCase true 1 none) ++
    List.replicate 3 (sampleCase false 0 none)

/-- Ten recent cases with exactly two failures (no other trigger fires). -/
def historyTwoFailures : List ConversionCase :=
  List.replicate 8 (sampleCase true 1 none) ++
    List.replicate 2 (sampleCase false 0 none)

/-- A learned pattern whose signature equals the signature of
`cy.get(#a)` + `cy.click()` input and whose single condition matches. -/
def samplePattern : LearningPattern :=
  { pattern_id := "p1", input_pattern := "GET_ELEMENT->CLICK_ELEMENT",
    output_pattern := "converted", success_rate := 9/10, usage_count := 0,
    avg_confidence := 1/2,
    context_conditions := [("has_api_calls", .pbool false)],
    last_updated := "t" }

/-- Sample input matching `samplePattern`. -/
def sampleMatchInput : String := "cy.get(#a)\ncy.click()"

/-- Sample context matching `samplePattern`'s condition. -/
def sampleMatchCtx : CtxDict := [("has_api_calls", .pbool false)]

/-- A context of complexity 3 (all flags off). -/
def c9ctxA : ConversionContext :=
  { code_complexity := 3, has_custom_commands := false,
    has_api_calls := false, has_form_interactions := false,
    test_count := 1, previous_attempts := [] }

/-- The same context except complexity 8. -/
def c9ctxB : ConversionContext :=
  { c9ctxA with code_complexity := 8 }

/-! ## Claim theorems -/

/-- **C3**: `hasCustomCommands` always wins (even at complexity 10 with API
calls), and otherwise the table is evaluated in fixed priority order with
the first match winning: `hasApiCalls ∧ complexity > 7 ↦ ApiTesting`, then
`hasFormInteractions ∧ testCount > 3 ↦ FormHeavy`, then
`complexity > 6 ↦ Complex`, else `Simple`. -/
theorem c3_decision_table :
    (∀ c : ConversionContext, c.has_custom_commands = true →
      decideStrategy c = .customCommands) ∧
    (∀ c : ConversionContext, c.has_custom_commands = false →
      c.has_api_calls = true → c.code_complexity > 7 →
      decideStrategy c = .apiTesting) ∧
    (∀ c : ConversionContext, c.has_custom_commands = false →
      ¬(c.has_api_calls = true ∧ c.code_complexity > 7) →
      c.has_form_interactions = true → c.test_count > 3 →
      decideStrategy c = .formHeavy) ∧
    (∀ c : ConversionContext, c.has_custom_commands = false →
      ¬(c.has_api_calls = true ∧ c.code_complexity > 7) →
      ¬(c.has_form_interactions = true ∧ c.test_count > 3) →
      c.code_complexity > 6 → decideStrategy c = .complex) ∧
    (∀ c : ConversionContext, c.has_custom_commands = false →
      ¬(c.has_api_calls = true ∧ c.code_complexity > 7) →
      ¬(c.has_form_interactions = true ∧ c.test_count > 3) →
      ¬(c.code_complexity > 6) → decideStrategy c = .simple) := by
  refine ⟨?_, ?_, ?_, ?_, ?_⟩ <;> intro c <;> intros <;>
    unfold decideStrategy <;> split_ifs <;> simp_all

/-- **C3 witness**: a context with `hasCustomCommands`, complexity 10 and
API calls still selects `CustomCommands`. -/
theorem c3_decision_table_witness :
    decideStrategy
      { code_complexity := 10, has_custom_commands := true,
        has_api_calls := true, has_form_interactions := false,
        test_count := 1, previous_attempts := [] } = .customCommands :=
  c3_decision_table.1 _ rfl

/-- **C8 counterexample**: with a one-line input and a non-JSON oracle
response, `analyze` falls back to the heuristics but returns complexity
`1 // 10 = 0`, outside the claimed range `[1, 10]`. -/
theorem c8_fallback_out_of_range :
    analyzeCode (fun _ => .ok "This is not JSON") (fun _ => none) "abc"
        = .ok (fallbackContext "abc") ∧
    (fallbackContext "abc").code_complexity = 0 ∧
    ¬(1 ≤ (fallbackContext "abc").code_complexity ∧
      (fallbackContext "abc").code_complexity ≤ 10) := by
  refine ⟨rfl, by decide, by decide⟩

/-- **C8 (amended)**: when the oracle response fails JSON decoding,
`analyze` returns the heuristic fallback context with no further oracle
call, and that context's complexity is the line count integer-divided by
10 (which lies in `[1, 10]` only for inputs of 10–109 lines, not in
general). -/
theorem c8_fallback_heuristics
    (llm : String → Except PyErr String) (jl : String → Option CtxDict)
    (code resp : String)
    (hresp : llm (analysisPrompt code) = .ok resp)
    (hparse : jl resp = none) :
    analyzeCode llm jl code = .ok (fallbackContext code) ∧
    (fallbackContext code).code_complexity = ((pyLines code).length : ℤ) / 10 := by
  constructor
  · simp only [analyzeCode, hresp, hparse]
  · rfl

/-- **C8 witness**: the amended theorem applied to a concrete one-line
input and a constant non-parsing oracle. -/
theorem c8_fallback_heuristics_witness :
    analyzeCode (fun _ => .ok "plain text") (fun _ => none) "abc"
        = .ok (fallbackContext "abc") ∧
    (fallbackContext "abc").code_complexity = ((pyLines "abc").length : ℤ) / 10 :=
  c8_fallback_heuristics (fun _ => .ok "plain text") (fun _ => none)
    "abc" "plain text" rfl rfl

/-- **C7**: `shouldReflect` checks its triggers in the fixed source order
(failure threshold first), so exactly 3 failures among the last 10 cases
yields `(true, FailureThreshold)` unconditionally; with 2 failures and no
other trigger condition it yields `(false, none)`; and the confidence-drop
trigger can never fire while fewer than 20 cases exist (the trend is
pinned to 0 until then). -/
theorem c7_reflection_triggers :
    (∀ history : List ConversionCase, countRecentFailures history = 3 →
      shouldReflect history = (true, some .failureThreshold)) ∧
    (∀ history : List ConversionCase, countRecentFailures history = 2 →
      ¬(analyzeConfidenceTrend history < -(1/5)) →
      ¬(history.length % 50 = 0 ∧ history.length > 0) →
      checkNegativeFeedback history = false →
      shouldReflect history = (false, none)) ∧
    (∀ history : List ConversionCase, history.length < 20 →
      (shouldReflect history).2 ≠ some .confidenceDrop) := by
  refine ⟨?_, ?_, ?_⟩
  · intro history h3
    simp [shouldReflect, h3]
  · intro history h2 htrend hper hfb
    have hlt : ¬(countRecentFailures history ≥ 3) := by omega
    unfold shouldReflect
    split_ifs with a
    · exact absurd a (by simp [hfb])
    · rfl
  · intro history hlen
    have htrend : analyzeConfidenceTrend history = 0 := by
      simp [analyzeConfidenceTrend, hlen]
    unfold shouldReflect
    split_ifs with a b c d
    · simp
    · exfalso
      rw [htrend] at b
      norm_num at b
    · simp
    · simp
    · simp

/-- **C7 witness**: the three conjuncts applied to concrete histories —
seven successes and three failures trigger the failure threshold, eight
successes and two failures trigger nothing, and a short history cannot
produce a confidence-drop trigger. -/
theorem c7_reflection_triggers_witness :
    shouldReflect historyThreeFailures = (true, some .failureThreshold) ∧
    shouldReflect historyTwoFailures = (false, none) ∧
    (shouldReflect historyTwoFailures).2 ≠ some .confidenceDrop := by
  have htrend : analyzeConfidenceTrend historyTwoFailures = 0 := by
    have hlen : historyTwoFailures.length < 20 := by decide
    simp [analyzeConfidenceTrend, hlen]
  refine ⟨?_, ?_, ?_⟩
  · exact c7_reflection_triggers.1 historyThreeFailures (by decide)
  · exact c7_reflection_triggers.2.1 historyTwoFailures (by decide)
      (by rw [htrend]; norm_num) (by decide) (by decide)
  · exact c7_reflection_triggers.2.2 historyTwoFailures (by decide)

set_option maxHeartbeats 2000000 in
/-- **C1** (code bug): the enhanced converter's `convert` raises an
unhandled `AttributeError` — `_decide_strategy_with_tools` falls back to
`super()._decide_strategy(enhanced_context)` with a plain dict, on which
attribute access faults — and the step-1 converter propagates an oracle
exception raised during analysis (`_analyze_code`'s `llm` call sits
outside its `try`).  The claim says a well-formed `ConversionResult` with
`success=false` is always returned instead. -/
theorem c1_convert_raises :
    enhancedConvert [] (fun _ => .ok "plain text") (fun _ => none) ""
        = .error (.attributeError "has_custom_commands") ∧
    convertCore [] (fun _ => .error (.oracle "ConnectionError"))
        (fun _ => none) "it(converts)"
        = .error (.oracle "ConnectionError") := by
  constructor
  · have hsort : sortScoredDesc (toolScores [] "" (ctxDictOf (fallbackContext ""))) =
        [(.regex, 71/100), (.validator, 71/100), (.pattern, 43/100), (.ast, 9/25)] := by
      norm_num [sortScoredDesc, insertScoredDesc, toolScores, allTools, canHandle,
        canHandleAst, canHandleRegex, canHandlePattern, canHandleValidator,
        histRate, perfLookup, toolKey, ctxDictOf, ctxGet, fallbackContext,
        show countStr "" "describe(" = 0 from rfl,
        show countStr "" "  it(" = 0 from rfl,
        show containsStr "" "describe(" = false from rfl,
        show containsStr "" "cy.intercept" = false from rfl,
        show containsStr "" "cy.login" = false from rfl,
        show containsStr "" "cy.custom" = false from rfl,
        show containsStr "" ".should(" = false from rfl,
        show containsStr "" ".and(" = false from rfl,
        show pyLines "" = [""] from rfl,
        show containsStr "" "cy." = false from rfl]
    have hbuild : buildSelected [(.validator, 71/100), (.pattern, 43/100), (.ast, 9/25)]
        [.regex] = .ok [.regex, .validator] := by
      norm_num [buildSelected, toolTypeValue]
      decide
    have hsel : selectTools [] "" (ctxDictOf (fallbackContext "")) = .ok [.regex, .validator] := by
      unfold selectTools
      rw [hsort]
      norm_num [hbuild]
    unfold enhancedConvert
    simp only [analyzeCode, bind, Except.bind, executeTools, hsel]
    rfl
  · rfl

set_option maxHeartbeats 4000000 in
/-- **C2** (code bug): on an input whose gathered tool insights do contain
a pattern-analyzer result suggesting `api_testing_focused`, strategy
selection does NOT return `ApiTesting`: `execute_tools` records the result
under `tool_type = "pattern_analyzer"` (the lower-case enum value) while
`_decide_strategy_with_tools` compares against `"PATTERN_ANALYZER"`, so
the override is dead code and control falls into the dict fallback, which
raises `AttributeError`.  The third conjunct shows the override branch
itself works when fed the upper-case tag it compares against. -/
theorem c2_override_never_fires :
    (executeTools [] c2code c2ctx).map
        (fun x => x.1.toolResults.map (fun r => (r.toolType, r.suggestedStrategy)))
      = .ok [(some "pattern_analyzer", some "api_testing_focused"),
             (some "regex_matcher", none), (some "syntax_validator", none)] ∧
    (executeTools [] c2code c2ctx).map
        (fun x => decideStrategyWithTools c2ctx x.1)
      = .ok (.error (.attributeError "has_custom_commands")) ∧
    findOverride
        [{ success := true, suggestedStrategy := some "api_testing_focused",
           toolUsed := "PATTERN_ANALYZER", toolType := some "PATTERN_ANALYZER" }]
      = some .apiTesting := by
  have hsort : sortScoredDesc (toolScores [] c2code c2ctx) =
      [(.pattern, 39/50), (.regex, 71/100), (.validator, 71/100), (.ast, 9/25)] := by
    norm_num [sortScoredDesc, insertScoredDesc, toolScores, allTools, canHandle,
      canHandleAst, canHandleRegex, canHandlePattern, canHandleValidator,
      histRate, perfLookup, toolKey, c2ctx, ctxDictOf, ctxGet, fallbackContext,
      show countStr c2code "describe(" = 0 from rfl,
      show countStr c2code "  it(" = 0 from rfl,
      show containsStr c2code "describe(" = false from rfl,
      show containsStr c2code "cy.intercept" = true from rfl,
      show pyLines c2code = [c2code] from rfl,
      show containsStr c2code "cy." = true from rfl]
  have hbuild : buildSelected [(.regex, 71/100), (.validator, 71/100), (.ast, 9/25)]
      [.pattern] = .ok [.pattern, .regex, .validator] := by
    norm_num [buildSelected, toolTypeValue]
    simp
  have hsel : selectTools [] c2code c2ctx = .ok [.pattern, .regex, .validator] := by
    unfold selectTools
    rw [hsort]
    norm_num [hbuild]
  refine ⟨?_, ?_, rfl⟩
  · simp only [executeTools, hsel]
    rfl
  · simp only [executeTools, hsel]
    rfl

/-- **C9 counterexample**: two pipeline contexts that differ in their
complexity entry map to the SAME performance-table key
(`"ast_parser_unknown"`), because the key reads `context['complexity']`
while the pipeline dict carries `code_complexity` — not a hash of all
key/value pairs; the claim's "distinct performance-table entries" fails. -/
theorem c9_same_bucket_for_different_contexts :
    toolKey .ast (ctxDictOf c9ctxA) = toolKey .ast (ctxDictOf c9ctxB) ∧
    toolKey .ast (ctxDictOf c9ctxA) = "ast_parser_unknown" ∧
    ctxGet (ctxDictOf c9ctxA) "code_complexity" = some (.pint 3) ∧
    ctxGet (ctxDictOf c9ctxB) "code_complexity" = some (.pint 8) := by
  refine ⟨rfl, rfl, rfl, rfl⟩

/-- Unfolding of `perfLookup` over a cons cell. -/
theorem perfLookup_cons (a : String × PerfEntry) (t : PerfTable) (k : String) :
    perfLookup (a :: t) k = if a.1 == k then some a.2 else perfLookup t k := by
  by_cases ha : a.1 == k <;> simp [perfLookup, List.find?_cons, ha]

/-- `find?` over an append whose left part misses the key. -/
theorem perfLookup_append_singleton (p : PerfTable) (k : String) (e : PerfEntry)
    (h : perfLookup p k = none) : perfLookup (p ++ [(k, e)]) k = some e := by
  induction p with
  | nil => simp [perfLookup]
  | cons a t ih =>
    rw [perfLookup_cons] at h
    rw [List.cons_append, perfLookup_cons]
    by_cases ha : a.1 == k
    · rw [if_pos ha] at h
      exact absurd h (by simp)
    · rw [if_neg ha] at h
      rw [if_neg ha]
      exact ih h

/-- Unfolding of `perfReplace` over a cons cell. -/
theorem perfReplace_cons (a : String × PerfEntry) (t : PerfTable) (k : String)
    (e : PerfEntry) :
    perfReplace (a :: t) k e
      = (if a.1 == k then (k, e) else a) :: perfReplace t k e := rfl

/-- Replacing the binding of a present key is observed by lookup. -/
theorem perfLookup_replace (p : PerfTable) (k : String) (e : PerfEntry)
    (h : perfLookup p k ≠ none) : perfLookup (perfReplace p k e) k = some e := by
  induction p with
  | nil => simp [perfLookup] at h
  | cons a t ih =>
    rw [perfLookup_cons] at h
    rw [perfReplace_cons]
    by_cases ha : a.1 == k
    · rw [if_pos ha, perfLookup_cons]
      simp
    · rw [if_neg ha] at h
      rw [if_neg ha, perfLookup_cons, if_neg ha]
      exact ih h

/-- **C9 (amended)**: the tool-performance bucket is not a hash of the
context's key/value pairs — it is the string value of the context's
`complexity` entry, `"unknown"` when absent.  Since the pipeline passes
`ConversionContext.__dict__` (whose key is `code_complexity`), every
pipeline context lands in the `_unknown` bucket of its tool kind; the
read defaults to 0.5 when no entry exists, and reads and writes do share
one key function, so an update is visible to the next read. -/
theorem c9_bucket_is_complexity_entry :
    (∀ (c : ConversionContext) (t : RTool),
      toolKey t (ctxDictOf c) = toolTypeValue t ++ "_" ++ "unknown") ∧
    (∀ (perf : PerfTable) (t : RTool) (ctx : CtxDict),
      perfLookup perf (toolKey t ctx) = none → histRate perf t ctx = 1/2) ∧
    (∀ (perf : PerfTable) (t : RTool) (ctx : CtxDict) (b : Bool),
      perfLookup perf (toolKey t ctx) = none →
      histRate (updateToolPerformance perf t ctx b) t ctx
        = if b then 1 else 0) := by
  refine ⟨?_, ?_, ?_⟩
  · intro c t
    simp [toolKey, ctxDictOf, ctxGet]
  · intro perf t ctx h
    simp [histRate, h]
  · intro perf t ctx b h
    have h1 : perfLookup (perf ++ [(toolKey t ctx, ⟨0, 0, 1/2⟩)]) (toolKey t ctx)
        = some ⟨0, 0, 1/2⟩ :=
      perfLookup_append_singleton perf _ _ h
    simp only [updateToolPerformance, h, h1]
    unfold histRate
    rw [perfLookup_replace _ _ _ (by rw [h1]; simp)]
    cases b <;> norm_num

/-- **C9 witness**: the amended theorem at the empty table: an `ast`
update with success `true` is read back as rate 1 under the shared key. -/
theorem c9_bucket_is_complexity_entry_witness :
    toolKey .ast (ctxDictOf c9ctxA) = "ast_parser" ++ "_" ++ "unknown" ∧
    histRate [] .ast (ctxDictOf c9ctxA) = 1/2 ∧
    histRate (updateToolPerformance [] .ast (ctxDictOf c9ctxA) true) .ast
      (ctxDictOf c9ctxA) = if true then 1 else 0 :=
  ⟨c9_bucket_is_complexity_entry.1 c9ctxA .ast,
   c9_bucket_is_complexity_entry.2.1 [] .ast (ctxDictOf c9ctxA) rfl,
   c9_bucket_is_complexity_entry.2.2 [] .ast (ctxDictOf c9ctxA) true rfl⟩

/-- Rows excluded by an inequality filter never pass the matching
equality filter. -/
theorem filter_hash_ne_then_eq (l : CaseDb) (h : String) :
    ((l.filter (fun x => x.input_hash ≠ h)).filter
      (fun x => x.input_hash == h)) = [] := by
  induction l with
  | nil => rfl
  | cons a t ih =>
    by_cases ha : a.input_hash = h <;>
      simp [List.filter_cons, ha, ih]

/-- Upserting twice under one hash leaves exactly the second record. -/
theorem store_store_filter (db : CaseDb) (c1 c2 : ConversionCase)
    (hh : c1.input_hash = c2.input_hash) :
    (storeConversionCase (storeConversionCase db c1) c2).filter
      (fun x => x.input_hash == c2.input_hash) = [c2] := by
  unfold storeConversionCase
  rw [List.filter_append, List.filter_append]
  simp [filter_hash_ne_then_eq, hh]

/-- **C5**: the input hash is computed from `input_code` alone (both cases
below share it whatever their other fields), and storing twice with the
same hash leaves exactly one record — the second write. -/
theorem c5_upsert_idempotent (md5hex16 : String → String) (db : CaseDb)
    (inputCode o1 o2 s1 s2 : String) (b1 b2 : Bool) (q1 q2 e1 e2 : ℚ)
    (ctx1 ctx2 : CtxDict) (t1 t2 : String) :
    (mkConversionCase md5hex16 inputCode o1 s1 b1 q1 e1 ctx1 t1).input_hash
      = (mkConversionCase md5hex16 inputCode o2 s2 b2 q2 e2 ctx2 t2).input_hash ∧
    (storeConversionCase (storeConversionCase db
        (mkConversionCase md5hex16 inputCode o1 s1 b1 q1 e1 ctx1 t1))
        (mkConversionCase md5hex16 inputCode o2 s2 b2 q2 e2 ctx2 t2)).filter
      (fun x => x.input_hash
        == (mkConversionCase md5hex16 inputCode o2 s2 b2 q2 e2 ctx2 t2).input_hash)
      = [mkConversionCase md5hex16 inputCode o2 s2 b2 q2 e2 ctx2 t2] :=
  ⟨rfl, store_store_filter db _ _ rfl⟩

/-- Unfolding of `spLookup` over a cons cell. -/
theorem spLookup_cons (k0 : String × String) (r : SPRow) (t : SPTable)
    (key : String × String) :
    spLookup ((k0, r) :: t) key = if k0 = key then some r else spLookup t key := rfl

/-- `spLookup` over an append whose left part misses the key. -/
theorem spLookup_append_singleton (t : SPTable) (key : String × String) (r : SPRow)
    (h : spLookup t key = none) : spLookup (t ++ [(key, r)]) key = some r := by
  induction t with
  | nil => simp [spLookup]
  | cons a t ih =>
    obtain ⟨k0, r0⟩ := a
    rw [spLookup_cons] at h
    rw [List.cons_append, spLookup_cons]
    by_cases hk : k0 = key
    · rw [if_pos hk] at h
      exact absurd h (by simp)
    · rw [if_neg hk] at h
      rw [if_neg hk]
      exact ih h

/-- `spReplace` is observed by `spLookup` at a present key. -/
theorem spLookup_replace (t : SPTable) (key : String × String) (nr : SPRow)
    (h : spLookup t key ≠ none) : spLookup (spReplace t key nr) key = some nr := by
  induction t with
  | nil => simp [spLookup] at h
  | cons a t ih =>
    obtain ⟨k0, r0⟩ := a
    rw [spLookup_cons] at h
    by_cases hk : k0 = key
    · subst hk
      rw [spReplace, if_pos rfl, spLookup_cons, if_pos rfl]
    · rw [if_neg hk] at h
      rw [spReplace, if_neg hk, spLookup_cons, if_neg hk]
      exact ih h

/-- A looked-up row is a member of the table. -/
theorem spLookup_mem (t : SPTable) (key : String × String) (r : SPRow)
    (h : spLookup t key = some r) : (key, r) ∈ t := by
  induction t with
  | nil => simp [spLookup] at h
  | cons a t ih =>
    obtain ⟨k0, r0⟩ := a
    rw [spLookup_cons] at h
    by_cases hk : k0 = key
    · rw [if_pos hk] at h
      subst hk
      obtain rfl : r0 = r := by simpa using h
      exact List.mem_cons_self _ _
    · rw [if_neg hk] at h
      exact List.mem_cons_of_mem _ (ih h)

/-- Members of a replaced table are old members or the new row. -/
theorem mem_spReplace (t : SPTable) (key : String × String) (nr : SPRow)
    (kv : (String × String) × SPRow) (h : kv ∈ spReplace t key nr) :
    kv ∈ t ∨ kv = (key, nr) := by
  induction t with
  | nil => simp [spReplace] at h
  | cons a t ih =>
    obtain ⟨k0, r0⟩ := a
    rw [spReplace] at h
    by_cases hk : k0 = key
    · rw [if_pos hk] at h
      rcases List.mem_cons.mp h with h1 | h1
      · exact Or.inr h1
      · rcases ih h1 with h2 | h2
        · exact Or.inl (List.mem_cons_of_mem _ h2)
        · exact Or.inr h2
    · rw [if_neg hk] at h
      rcases List.mem_cons.mp h with h1 | h1
      · exact Or.inl (h1 ▸ List.mem_cons_self _ _)
      · rcases ih h1 with h2 | h2
        · exact Or.inl (List.mem_cons_of_mem _ h2)
        · exact Or.inr h2

/-- One `spStep` on a table that already holds the pair's row. -/
theorem spStep_some (ctxHash : CtxDict → String) (strategy : String)
    (ctx : CtxDict) (tbl : SPTable) (u : Bool × ℚ × ℚ × String) (r : SPRow)
    (h : spLookup tbl (strategy, ctxHash ctx) = some r) :
    spStep ctxHash strategy ctx tbl u
      = spReplace tbl (strategy, ctxHash ctx)
          ⟨r.attempts + 1, r.successes + (if u.1 then 1 else 0),
           (r.avg_confidence * r.attempts + u.2.1) / (r.attempts + 1),
           (r.avg_execution_time * r.attempts + u.2.2.1) / (r.attempts + 1),
           u.2.2.2⟩ := by
  simp only [spStep, updateStrategyPerformance, h]
  norm_cast

/-- One `spStep` on a table with no row for the pair yet. -/
theorem spStep_none (ctxHash : CtxDict → String) (strategy : String)
    (ctx : CtxDict) (tbl : SPTable) (u : Bool × ℚ × ℚ × String)
    (h : spLookup tbl (strategy, ctxHash ctx) = none) :
    spStep ctxHash strategy ctx tbl u
      = tbl ++ [((strategy, ctxHash ctx),
          ⟨1, if u.1 then 1 else 0, u.2.1, u.2.2.1, u.2.2.2⟩)] := by
  simp only [spStep, updateStrategyPerformance, h]

/-- Fold characterization for `update_strategy_performance`: starting from
a table holding `⟨n, s, A, T, lu⟩` for the pair, a batch of further calls
leaves a row whose attempts grow by the batch size, whose successes grow
by the number of `true` flags, and whose stored means satisfy the exact
sum equations. -/
theorem spFold_char (ctxHash : CtxDict → String) (strategy : String)
    (ctx : CtxDict) :
    ∀ (us : List (Bool × ℚ × ℚ × String)) (tbl : SPTable) (n s : ℕ)
      (A T : ℚ) (lu : String),
      spLookup tbl (strategy, ctxHash ctx) = some ⟨n, s, A, T, lu⟩ → 0 < n →
      ∃ (A' T' : ℚ) (lu' : String),
        spLookup (us.foldl (spStep ctxHash strategy ctx) tbl)
            (strategy, ctxHash ctx)
          = some ⟨n + us.length, s + (us.filter (·.1)).length, A', T', lu'⟩ ∧
        A' * ((n : ℚ) + us.length) = A * n + (us.map (fun u => u.2.1)).sum ∧
        T' * ((n : ℚ) + us.length) = T * n + (us.map (fun u => u.2.2.1)).sum := by
  intro us
  induction us with
  | nil =>
    intro tbl n s A T lu h _
    exact ⟨A, T, lu, by simpa using h, by simp, by simp⟩
  | cons u us ih =>
    intro tbl n s A T lu h hn
    have hstep := spStep_some ctxHash strategy ctx tbl u ⟨n, s, A, T, lu⟩ h
    have hlook : spLookup (spStep ctxHash strategy ctx tbl u)
        (strategy, ctxHash ctx)
        = some ⟨n + 1, s + (if u.1 then 1 else 0),
            (A * n + u.2.1) / ((n : ℚ) + 1),
            (T * n + u.2.2.1) / ((n : ℚ) + 1), u.2.2.2⟩ := by
      rw [hstep]
      exact spLookup_replace _ _ _ (by rw [h]; exact Option.noConfusion)
    obtain ⟨A', T', lu', hfin, hA, hT⟩ :=
      ih (spStep ctxHash strategy ctx tbl u) (n + 1)
        (s + (if u.1 then 1 else 0))
        ((A * n + u.2.1) / ((n : ℚ) + 1))
        ((T * n + u.2.2.1) / ((n : ℚ) + 1)) u.2.2.2 hlook (by omega)
    have hn1 : ((n : ℚ) + 1) ≠ 0 := by positivity
    have hcA : (A * n + u.2.1) / ((n : ℚ) + 1) * ((n : ℚ) + 1) = A * n + u.2.1 :=
      div_mul_cancel₀ _ hn1
    have hcT : (T * n + u.2.2.1) / ((n : ℚ) + 1) * ((n : ℚ) + 1)
        = T * n + u.2.2.1 :=
      div_mul_cancel₀ _ hn1
    push_cast at hA hT
    rw [hcA] at hA
    rw [hcT] at hT
    refine ⟨A', T', lu', ?_, ?_, ?_⟩
    · rw [List.foldl_cons, hfin]
      have h1 : n + 1 + us.length = n + (u :: us).length := by
        simp [List.length_cons]
        omega
      have h2 : s + (if u.1 then 1 else 0) + (us.filter (·.1)).length
          = s + ((u :: us).filter (·.1)).length := by
        rw [List.filter_cons]
        by_cases hu : u.1 <;> simp [hu]
        omega
      rw [h1, h2]
    · push_cast [List.length_cons, List.map_cons, List.sum_cons]
      linear_combination hA
    · push_cast [List.length_cons, List.map_cons, List.sum_cons]
      linear_combination hT

/-- **C4**: after `k` calls to `updateStrategyPerformance` for one
`(strategy, context)` pair with flags `s_1..s_k` and confidences
`c_1..c_k`, the stored row has `attempts = k`,
`successes = #{i | s_i}`, and `avgConfidence = mean(c_1..c_k)` (exactly,
in the rational idealization of float arithmetic); and every single
update preserves `successes ≤ attempts` across the whole table. -/
theorem c4_running_mean :
    (∀ (ctxHash : CtxDict → String) (strategy : String) (ctx : CtxDict)
        (us : List (Bool × ℚ × ℚ × String)), us ≠ [] →
      ∃ r : SPRow,
        spLookup (us.foldl (spStep ctxHash strategy ctx) [])
            (strategy, ctxHash ctx) = some r ∧
        r.attempts = us.length ∧
        r.successes = (us.filter (·.1)).length ∧
        r.avg_confidence = (us.map (fun u => u.2.1)).sum / (us.length : ℚ) ∧
        r.successes ≤ r.attempts) ∧
    (∀ (ctxHash : CtxDict → String) (tbl : SPTable) (strategy : String)
        (ctx : CtxDict) (b : Bool) (c tm : ℚ) (now : String),
      (∀ kv ∈ tbl, kv.2.successes ≤ kv.2.attempts) →
      ∀ kv ∈ updateStrategyPerformance ctxHash tbl strategy ctx b c tm now,
        kv.2.successes ≤ kv.2.attempts) := by
  constructor
  · intro ctxHash strategy ctx us hne
    obtain ⟨u0, us', rfl⟩ := List.exists_cons_of_ne_nil hne
    have h0 : spLookup (spStep ctxHash strategy ctx [] u0) (strategy, ctxHash ctx)
        = some ⟨1, if u0.1 then 1 else 0, u0.2.1, u0.2.2.1, u0.2.2.2⟩ := by
      rw [spStep_none ctxHash strategy ctx [] u0 rfl]
      simp [spLookup]
    obtain ⟨A', T', lu', hfin, hA, _⟩ :=
      spFold_char ctxHash strategy ctx us' (spStep ctxHash strategy ctx [] u0)
        1 (if u0.1 then 1 else 0) u0.2.1 u0.2.2.1 u0.2.2.2 h0 one_pos
    refine ⟨⟨1 + us'.length, (if u0.1 then 1 else 0) + (us'.filter (·.1)).length,
        A', T', lu'⟩, ?_, ?_, ?_, ?_, ?_⟩
    · rw [List.foldl_cons]
      exact hfin
    · simp [List.length_cons]
      omega
    · rw [List.filter_cons]
      by_cases hu : u0.1 <;> simp [hu]
      omega
    · have hlen : (((u0 :: us').length : ℕ) : ℚ) ≠ 0 := by
        push_cast [List.length_cons]
        positivity
      rw [eq_div_iff hlen]
      push_cast [List.length_cons, List.map_cons, List.sum_cons]
      push_cast at hA
      linear_combination hA
    · have := List.length_filter_le (·.1) us'
      simp only []
      by_cases hu : u0.1 <;> simp [hu] <;> omega
  · intro ctxHash tbl strategy ctx b c tm now hinv kv hkv
    simp only [updateStrategyPerformance] at hkv
    cases hl : spLookup tbl (strategy, ctxHash ctx) with
    | none =>
      rw [hl] at hkv
      rcases List.mem_append.mp hkv with hm | hm
      · exact hinv kv hm
      · have : kv = ((strategy, ctxHash ctx),
            ⟨1, if b then 1 else 0, c, tm, now⟩) := by simpa using hm
        subst this
        by_cases hb : b <;> simp [hb]
    | some r =>
      rw [hl] at hkv
      rcases mem_spReplace _ _ _ _ hkv with hm | hm
      · exact hinv kv hm
      · have hr := hinv ((strategy, ctxHash ctx), r) (spLookup_mem _ _ _ hl)
        subst hm
        simp only [] at hr ⊢
        by_cases hb : b <;> simp [hb] <;> omega

/-- **C4 witness**: two calls — a success at confidence 1/2, then a
failure at confidence 1 — leave attempts 2, successes 1 and average
confidence 3/4. -/
theorem c4_running_mean_witness :
    ∃ r : SPRow,
      spLookup ([((true : Bool), (1/2 : ℚ), (1 : ℚ), "t1"),
          ((false : Bool), (1 : ℚ), (2 : ℚ), "t2")].foldl
          (spStep (fun _ => "h") "simple" []) []) ("simple", "h") = some r ∧
      r.attempts = 2 ∧
      r.successes = 1 ∧
      r.avg_confidence = (1/2 + 1) / 2 ∧
      r.successes ≤ r.attempts := by
  have h := c4_running_mean.1 (fun _ => "h") "simple" []
    [((true : Bool), (1/2 : ℚ), (1 : ℚ), "t1"),
     ((false : Bool), (1 : ℚ), (2 : ℚ), "t2")] (by simp)
  obtain ⟨r, h1, h2, h3, h4, h5⟩ := h
  refine ⟨r, h1, by simpa using h2, by simpa using h3, ?_, h5⟩
  rw [h4]
  norm_num

/-- `split` always yields at least one piece. -/
theorem splitSeqAux_ne_nil (sep : List Char) :
    ∀ (fuel : Nat) (s : List Char), splitSeqAux sep fuel s ≠ [] := by
  intro fuel
  induction fuel with
  | zero => intro s; simp [splitSeqAux]
  | succ n ih =>
    intro s
    match s with
    | [] => simp [splitSeqAux]
    | c :: rest =>
      rw [splitSeqAux]
      by_cases h : sep ≠ [] ∧ sep.isPrefixOf (c :: rest)
      · simp [h]
      · rw [if_neg h]
        cases hs : splitSeqAux sep n rest <;> simp

/-- A signature set is never empty (Python's `split` always returns at
least one piece, possibly the empty string). -/
theorem sigSet_ne_empty (p : String) : sigSet p ≠ ∅ := by
  unfold sigSet splitStr splitSeqL
  cases hs : splitSeqAux "->".data p.data.length p.data with
  | nil => exact absurd hs (splitSeqAux_ne_nil _ _ _)
  | cons h t =>
    intro hempty
    have : h.asString ∈ (List.map List.asString (h :: t)).toFinset := by
      simp
    rw [hempty] at this
    exact absurd this (Finset.not_mem_empty _)

/-- The guard in `_calculate_pattern_match_score` is dead code: the score
is always the weighted sum of the two similarity terms. -/
theorem calculateScore_formula (ip : String) (p : LearningPattern)
    (ctx : CtxDict) :
    calculatePatternMatchScore ip p ctx
      = jaccardQ (sigSet ip) (sigSet p.input_pattern) * (7/10)
        + condFrac p ctx * (3/10) := by
  unfold calculatePatternMatchScore
  rw [if_neg]
  push_neg
  exact ⟨sigSet_ne_empty ip, sigSet_ne_empty p.input_pattern⟩

/-- Jaccard similarity is non-negative and at most 1. -/
theorem jaccardQ_bounds (a b : Finset String) :
    0 ≤ jaccardQ a b ∧ jaccardQ a b ≤ 1 := by
  constructor
  · exact div_nonneg (by positivity) (by positivity)
  · unfold jaccardQ
    rcases Nat.eq_zero_or_pos (a ∪ b).card with h | h
    · simp [h]
    · have hle : ((a ∩ b).card : ℚ) ≤ ((a ∪ b).card : ℚ) := by
        exact_mod_cast Finset.card_le_card
          (Finset.Subset.trans (Finset.inter_subset_left) Finset.subset_union_left)
      exact div_le_one_of_le hle (by positivity)

/-- The context-condition fraction is non-negative and at most 1. -/
theorem condFrac_bounds (p : LearningPattern) (ctx : CtxDict) :
    0 ≤ condFrac p ctx ∧ condFrac p ctx ≤ 1 := by
  unfold condFrac
  split_ifs with h
  · norm_num
  · constructor
    · exact div_nonneg (by positivity) (by positivity)
    · have hpos : (0 : ℚ) < (p.context_conditions.length : ℚ) := by
        have : p.context_conditions.length ≠ 0 := by
          simpa [List.length_eq_zero] using h
        exact_mod_cast Nat.pos_of_ne_zero this
      have hle : ((p.context_conditions.filter
            (fun kv => ctxGet ctx kv.1 = some kv.2)).length : ℚ)
          ≤ (p.context_conditions.length : ℚ) := by
        exact_mod_cast List.length_filter_le _ _
      exact div_le_one_of_le hle (le_of_lt hpos)

/-- Scores lie in `[0, 1]`. -/
theorem calculateScore_le_one (ip : String) (p : LearningPattern)
    (ctx : CtxDict) : calculatePatternMatchScore ip p ctx ≤ 1 := by
  rw [calculateScore_formula]
  have hj := jaccardQ_bounds (sigSet ip) (sigSet p.input_pattern)
  have hc := condFrac_bounds p ctx
  nlinarith [hj.1, hj.2, hc.1, hc.2]

/-- Invariant of the best-match fold: the running best (when set) is a
processed pattern scoring strictly above the threshold, every processed
pattern scores at most `max 0.7 best`, and the best score only grows. -/
theorem bestMatchFold_inv (score : LearningPattern → ℚ) :
    ∀ (ps : List LearningPattern) (acc : Option LearningPattern × ℚ),
      (match acc.1 with
       | some q => acc.2 = score q ∧ acc.2 > 7/10
       | none => acc.2 = 0) →
      (match (ps.foldl (fun best p =>
          if score p > best.2 ∧ score p > 7/10 then (some p, score p) else best)
          acc).1 with
       | some q =>
         (ps.foldl (fun best p =>
           if score p > best.2 ∧ score p > 7/10 then (some p, score p) else best)
           acc).2 = score q ∧
         (ps.foldl (fun best p =>
           if score p > best.2 ∧ score p > 7/10 then (some p, score p) else best)
           acc).2 > 7/10 ∧
         (acc.1 = some q ∨ q ∈ ps)
       | none =>
         (ps.foldl (fun best p =>
           if score p > best.2 ∧ score p > 7/10 then (some p, score p) else best)
           acc).2 = 0) ∧
      (∀ p ∈ ps, score p ≤ max (7/10)
        (ps.foldl (fun best p =>
          if score p > best.2 ∧ score p > 7/10 then (some p, score p) else best)
          acc).2) ∧
      acc.2 ≤ (ps.foldl (fun best p =>
        if score p > best.2 ∧ score p > 7/10 then (some p, score p) else best)
        acc).2 := by
  intro ps
  induction ps with
  | nil =>
    intro acc hacc
    refine ⟨?_, by simp, le_refl _⟩
    match h : acc.1 with
    | some q =>
      rw [h] at hacc
      exact ⟨hacc.1, hacc.2, Or.inl rfl⟩
    | none =>
      rw [h] at hacc
      exact hacc
  | cons p ps ih =>
    intro acc hacc
    rw [List.foldl_cons]
    by_cases hsp : score p > acc.2 ∧ score p > 7/10
    · rw [if_pos hsp]
      have hinv' : (match (some p, score p).1 with
          | some q => (some p, score p).2 = score q ∧ (some p, score p).2 > 7/10
          | none => (some p, score p).2 = 0) := ⟨rfl, hsp.2⟩
      obtain ⟨hm, hb, hmono⟩ := ih (some p, score p) hinv'
      refine ⟨?_, ?_, ?_⟩
      · match hq : (ps.foldl _ (some p, score p)).1 with
        | some q =>
          rw [hq] at hm
          refine ⟨hm.1, hm.2.1, ?_⟩
          rcases hm.2.2 with h1 | h1
          · exact Or.inr (List.mem_cons.mpr (Or.inl (by simpa using h1.symm)))
          · exact Or.inr (List.mem_cons.mpr (Or.inr h1))
        | none =>
          rw [hq] at hm
          exact hm
      · intro p' hp'
        rcases List.mem_cons.mp hp' with rfl | hmem
        · calc score p' ≤ (ps.foldl _ (some p', score p')).2 := hmono
            _ ≤ max (7/10) _ := le_max_right _ _
        · exact hb p' hmem
      · exact le_trans (le_of_lt hsp.1) hmono
    · rw [if_neg hsp]
      obtain ⟨hm, hb, hmono⟩ := ih acc hacc
      refine ⟨?_, ?_, hmono⟩
      · match hq : (ps.foldl _ acc).1 with
        | some q =>
          rw [hq] at hm
          refine ⟨hm.1, hm.2.1, ?_⟩
          rcases hm.2.2 with h1 | h1
          · exact Or.inl h1
          · exact Or.inr (List.mem_cons.mpr (Or.inr h1))
        | none =>
          rw [hq] at hm
          exact hm
      · intro p' hp'
        rcases List.mem_cons.mp hp' with rfl | hmem
        · push_neg at hsp
          rcases lt_or_le (7/10 : ℚ) (score p') with hgt | hle
          · have h1 : score p' ≤ acc.2 := by
              by_contra hcon
              push_neg at hcon
              exact absurd hgt (not_lt.mpr (le_of_lt (lt_of_not_le
                (fun hx => absurd (hsp hcon) (not_le.mpr hgt)))))
            exact le_trans h1 (le_trans hmono (le_max_right _ _))
          · exact le_trans hle (le_max_left _ _)
        · exact hb p' hmem

/-- **C6**: the match score is exactly
`0.7 * Jaccard(sig(input), sig(pattern)) + 0.3 * matchedConditionFraction`
(zero-condition patterns contribute 0 to the second term); a pattern with
the input's signature set and all (≥ 1) conditions matching scores 1.0,
and a pattern scoring 1.0 is then returned (and passes the
`successRate > 0.8` usage guard when applicable); a pattern with disjoint
signature and no matching condition scores 0 and is never returned; and
any returned pattern scores strictly above 0.7 and at least as high as
every known pattern. -/
theorem c6_pattern_matching (patterns : List LearningPattern)
    (inputCode : String) (ctx : CtxDict) :
    (∀ p : LearningPattern,
      calculatePatternMatchScore (inputPatternOf inputCode) p ctx
        = jaccardQ (sigSet (inputPatternOf inputCode)) (sigSet p.input_pattern)
            * (7/10) + condFrac p ctx * (3/10)) ∧
    (∀ p : LearningPattern, p.context_conditions = [] → condFrac p ctx = 0) ∧
    (∀ p ∈ patterns,
      sigSet p.input_pattern = sigSet (inputPatternOf inputCode) →
      p.context_conditions ≠ [] →
      (∀ kv ∈ p.context_conditions, ctxGet ctx kv.1 = some kv.2) →
      calculatePatternMatchScore (inputPatternOf inputCode) p ctx = 1 ∧
      ∃ q, findMatchingPattern patterns inputCode ctx = some q ∧
        calculatePatternMatchScore (inputPatternOf inputCode) q ctx = 1 ∧
        (q.success_rate > 4/5 →
          usesLearnedPattern (findMatchingPattern patterns inputCode ctx) = true)) ∧
    (∀ p : LearningPattern,
      sigSet p.input_pattern ∩ sigSet (inputPatternOf inputCode) = ∅ →
      (∀ kv ∈ p.context_conditions, ¬(ctxGet ctx kv.1 = some kv.2)) →
      calculatePatternMatchScore (inputPatternOf inputCode) p ctx = 0 ∧
      findMatchingPattern patterns inputCode ctx ≠ some p) ∧
    (∀ q, findMatchingPattern patterns inputCode ctx = some q →
      calculatePatternMatchScore (inputPatternOf inputCode) q ctx > 7/10 ∧
      ∀ p ∈ patterns,
        calculatePatternMatchScore (inputPatternOf inputCode) p ctx
          ≤ calculatePatternMatchScore (inputPatternOf inputCode) q ctx) := by
  set score := fun p => calculatePatternMatchScore (inputPatternOf inputCode) p ctx
    with hscore
  have hF : findMatchingPattern patterns inputCode ctx
      = (patterns.foldl (fun best p =>
          if score p > best.2 ∧ score p > 7/10 then (some p, score p) else best)
          ((none : Option LearningPattern), (0 : ℚ))).1 := rfl
  obtain ⟨hm, hb, _⟩ := bestMatchFold_inv score patterns (none, 0) rfl
  have hzero_score : ∀ p : LearningPattern,
      sigSet p.input_pattern ∩ sigSet (inputPatternOf inputCode) = ∅ →
      (∀ kv ∈ p.context_conditions, ¬(ctxGet ctx kv.1 = some kv.2)) →
      score p = 0 := by
    intro p hdisj hnone
    rw [hscore]
    simp only []
    rw [calculateScore_formula]
    have hj : jaccardQ (sigSet (inputPatternOf inputCode)) (sigSet p.input_pattern) = 0 := by
      unfold jaccardQ
      rw [Finset.inter_comm, hdisj]
      simp
    have hc : condFrac p ctx = 0 := by
      unfold condFrac
      split_ifs with hcc
      · rfl
      · have : p.context_conditions.filter
            (fun kv => ctxGet ctx kv.1 = some kv.2) = [] := by
          rw [List.filter_eq_nil]
          intro kv hkv
          simpa using hnone kv hkv
        rw [this]
        simp
    rw [hj, hc]
    ring
  have hmax : ∀ q, findMatchingPattern patterns inputCode ctx = some q →
      score q > 7/10 ∧ ∀ p ∈ patterns, score p ≤ score q := by
    intro q hq
    rw [hF] at hq
    rw [hq] at hm
    obtain ⟨h1, h2, _⟩ := hm
    constructor
    · rw [← h1]; exact h2
    · intro p hp
      have hthis := hb p hp
      rw [h1] at hthis h2
      rwa [max_eq_right (le_of_lt h2)] at hthis
  refine ⟨fun p => calculateScore_formula _ p ctx,
    fun p hp => by unfold condFrac; simp [hp], ?_, ?_, hmax⟩
  · intro p hp hsig hcc hall
    have hone : score p = 1 := by
      rw [hscore]
      simp only []
      rw [calculateScore_formula, hsig]
      have hj : jaccardQ (sigSet (inputPatternOf inputCode))
          (sigSet (inputPatternOf inputCode)) = 1 := by
        unfold jaccardQ
        rw [Finset.inter_self, Finset.union_self]
        rw [div_self]
        have := sigSet_ne_empty (inputPatternOf inputCode)
        have hcard : (sigSet (inputPatternOf inputCode)).card ≠ 0 := by
          simpa [Finset.card_eq_zero] using this
        exact_mod_cast Nat.cast_ne_zero.mpr hcard
      have hc : condFrac p ctx = 1 := by
        unfold condFrac
        rw [if_neg hcc]
        have hfil : p.context_conditions.filter
            (fun kv => ctxGet ctx kv.1 = some kv.2) = p.context_conditions := by
          rw [List.filter_eq_self]
          intro kv hkv
          simpa using hall kv hkv
        rw [hfil, div_self]
        have : p.context_conditions.length ≠ 0 := by
          simpa [List.length_eq_zero] using hcc
        exact_mod_cast Nat.cast_ne_zero.mpr this
      rw [hj, hc]
      ring
    refine ⟨hone, ?_⟩
    have hsome : (patterns.foldl (fun best p =>
        if score p > best.2 ∧ score p > 7/10 then (some p, score p) else best)
        ((none : Option LearningPattern), (0 : ℚ))).1.isSome := by
      by_contra hno
      rw [Option.not_isSome_iff_eq_none] at hno
      rw [hno] at hm
      have := hb p hp
      rw [hm, hone] at this
      rw [max_eq_left (by norm_num)] at this
      norm_num at this
    obtain ⟨q, hq⟩ := Option.isSome_iff_exists.mp hsome
    have hret : findMatchingPattern patterns inputCode ctx = some q := by
      rw [hF, hq]
    obtain ⟨hgt, hall'⟩ := hmax q hret
    have hq1 : score q = 1 := by
      have hub := calculateScore_le_one (inputPatternOf inputCode) q ctx
      have hlb := hall' p hp
      rw [hone] at hlb
      have : score q ≤ 1 := hub
      linarith
    exact ⟨q, hret, hq1, fun hsr => by simp [usesLearnedPattern, hret, hsr]⟩
  · intro p hdisj hnone
    have h0 := hzero_score p hdisj hnone
    refine ⟨h0, ?_⟩
    intro hret
    have := (hmax p hret).1
    rw [h0] at this
    norm_num at this

/-- **C6 witness**: the `GET_ELEMENT->CLICK_ELEMENT` pattern with one
matching context condition scores 1.0 against the matching sample input
and is returned (and its 0.9 success rate passes the usage guard). -/
theorem c6_pattern_matching_witness :
    calculatePatternMatchScore (inputPatternOf sampleMatchInput) samplePattern
      sampleMatchCtx = 1 ∧
    ∃ q, findMatchingPattern [samplePattern] sampleMatchInput sampleMatchCtx
        = some q ∧
      calculatePatternMatchScore (inputPatternOf sampleMatchInput) q
        sampleMatchCtx = 1 ∧
      (q.success_rate > 4/5 →
        usesLearnedPattern
          (findMatchingPattern [samplePattern] sampleMatchInput sampleMatchCtx)
          = true) :=
  (c6_pattern_matching [samplePattern] sampleMatchInput sampleMatchCtx).2.2.1
    samplePattern (by simp) rfl (by simp [samplePattern]) (by decide)

/-- Inserting never lowers the head below the inserted score. -/
theorem insertScoredDesc_head_self (x : RTool × ℚ) (s : List (RTool × ℚ)) :
    ∃ h t, insertScoredDesc x s = h :: t ∧ x.2 ≤ h.2 := by
  cases s with
  | nil => exact ⟨x, [], rfl, le_refl _⟩
  | cons y ys =>
    rw [insertScoredDesc]
    by_cases hxy : x.2 ≥ y.2
    · exact ⟨x, y :: ys, if_pos hxy, le_refl _⟩
    · push_neg at hxy
      exact ⟨y, insertScoredDesc x ys, if_neg (not_le.mpr hxy), le_of_lt hxy⟩

/-- Inserting never lowers the head below the previous head. -/
theorem insertScoredDesc_head_prev (x h0 : RTool × ℚ) (t0 : List (RTool × ℚ)) :
    ∃ h t, insertScoredDesc x (h0 :: t0) = h :: t ∧ h0.2 ≤ h.2 := by
  rw [insertScoredDesc]
  by_cases hxy : x.2 ≥ h0.2
  · exact ⟨x, h0 :: t0, if_pos hxy, hxy⟩
  · exact ⟨h0, insertScoredDesc x t0, if_neg hxy, le_refl _⟩

/-- The head of the stable descending sort dominates every member. -/
theorem sortScoredDesc_head_ge (l : List (RTool × ℚ)) (x : RTool × ℚ)
    (hx : x ∈ l) : ∃ h t, sortScoredDesc l = h :: t ∧ x.2 ≤ h.2 := by
  induction l with
  | nil => cases hx
  | cons a as ih =>
    rw [sortScoredDesc]
    rcases List.mem_cons.mp hx with rfl | hmem
    · exact insertScoredDesc_head_self x (sortScoredDesc as)
    · obtain ⟨h0, t0, heq, hle⟩ := ih hmem
      rw [heq]
      obtain ⟨h, t, heq', hle'⟩ := insertScoredDesc_head_prev a h0 t0
      exact ⟨h, t, heq', le_trans hle hle'⟩

/-- Unfolding of the complementary-tool loop on a non-empty selection. -/
theorem buildSelected_cons (t : RTool) (s : ℚ) (rest : List (RTool × ℚ))
    (s0 : RTool) (sel' : List RTool) :
    buildSelected ((t, s) :: rest) (s0 :: sel')
      = if s > 3/5 then
          (if toolTypeValue t ≠ toolTypeValue s0 then
            (if 3 ≤ ((s0 :: sel') ++ [t]).length then
              Except.ok ((s0 :: sel') ++ [t])
             else buildSelected rest ((s0 :: sel') ++ [t]))
          else buildSelected rest (s0 :: sel'))
        else buildSelected rest (s0 :: sel') := rfl

/-- The complementary-tool loop cannot fault and cannot empty a non-empty
selection. -/
theorem buildSelected_ok (rest : List (RTool × ℚ)) :
    ∀ sel : List RTool, sel ≠ [] →
    ∃ out, buildSelected rest sel = .ok out ∧ out ≠ [] := by
  induction rest with
  | nil => intro sel hne; exact ⟨sel, rfl, hne⟩
  | cons ts rest ih =>
    intro sel hne
    obtain ⟨t, s⟩ := ts
    obtain ⟨s0, sel', rfl⟩ := List.exists_cons_of_ne_nil hne
    rw [buildSelected_cons]
    by_cases hs : s > 3/5
    · rw [if_pos hs]
      by_cases hty : toolTypeValue t ≠ toolTypeValue s0
      · rw [if_pos hty]
        by_cases hlen : 3 ≤ ((s0 :: sel') ++ [t]).length
        · rw [if_pos hlen]
          exact ⟨(s0 :: sel') ++ [t], rfl, by simp⟩
        · rw [if_neg hlen]
          exact ih ((s0 :: sel') ++ [t]) (by simp)
      · rw [if_neg hty]
        exact ih (s0 :: sel') (by simp)
    · rw [if_neg hs]
      exact ih (s0 :: sel') (by simp)

/-- Historical rates read from a table of non-negative rates are
non-negative. -/
theorem histRate_nonneg (perf : PerfTable) (t : RTool) (ctx : CtxDict)
    (hperf : ∀ kv ∈ perf, 0 ≤ kv.2.success_rate) : 0 ≤ histRate perf t ctx := by
  unfold histRate
  cases hl : perfLookup perf (toolKey t ctx) with
  | none => norm_num
  | some e =>
    obtain ⟨kv, hfind⟩ : ∃ kv, perf.find? (fun kv => kv.1 == toolKey t ctx)
        = some kv ∧ kv.2 = e := by
      unfold perfLookup at hl
      cases hf : perf.find? (fun kv => kv.1 == toolKey t ctx) with
      | none => rw [hf] at hl; simp at hl
      | some kv => rw [hf] at hl; exact ⟨kv, rfl, by simpa using hl⟩
    rw [← hfind.2]
    exact hperf kv (List.mem_of_find?_eq_some hfind.1)

/-- Evaluation of `select_tools` once the sorted scores are known. -/
theorem selectTools_cons_eval (perf : PerfTable) (code : String) (ctx : CtxDict)
    (top : RTool × ℚ) (rest : List (RTool × ℚ))
    (hsort : sortScoredDesc (toolScores perf code ctx) = top :: rest) :
    selectTools perf code ctx
      = (match buildSelected rest (if top.2 > 1/2 then [top.1] else []) with
         | .error e => .error e
         | .ok sel =>
           .ok (if RTool.validator ∈ sel then sel else sel ++ [RTool.validator])) := by
  unfold selectTools
  rw [hsort]

/-- **C10**: with the four registered tools and any table of non-negative
historical rates, `select_tools` always succeeds (the unguarded
`selected_tools[0]` access never faults), returns a non-empty selection
containing the syntax validator, and the top sorted score is at least
`0.7*0.8 = 0.56 > 0.5` thanks to the validator's constant `can_handle`. -/
theorem c10_selector_total (perf : PerfTable) (code : String) (ctx : CtxDict)
    (hperf : ∀ kv ∈ perf, 0 ≤ kv.2.success_rate) :
    ∃ sel, selectTools perf code ctx = .ok sel ∧ sel ≠ [] ∧
      RTool.validator ∈ sel ∧
      ∃ top rest, sortScoredDesc (toolScores perf code ctx) = top :: rest ∧
        14/25 ≤ top.2 := by
  have hvmem : (RTool.validator,
      canHandle .validator code ctx * (7/10)
        + histRate perf .validator ctx * (3/10)) ∈ toolScores perf code ctx := by
    simp [toolScores, allTools]
  obtain ⟨top, rest, hsort, hge⟩ := sortScoredDesc_head_ge _ _ hvmem
  have hhist := histRate_nonneg perf .validator ctx hperf
  have hv : (14/25 : ℚ) ≤ canHandle .validator code ctx * (7/10)
      + histRate perf .validator ctx * (3/10) := by
    unfold canHandle canHandleValidator
    have h3 : (0 : ℚ) ≤ histRate perf .validator ctx * (3/10) :=
      mul_nonneg hhist (by norm_num)
    linarith
  have htop : (14/25 : ℚ) ≤ top.2 := le_trans hv hge
  have htop5 : top.2 > 1/2 := lt_of_lt_of_le (by norm_num) htop
  obtain ⟨out, hout, houtne⟩ := buildSelected_ok rest [top.1] (by simp)
  have heval := selectTools_cons_eval perf code ctx top rest hsort
  rw [if_pos htop5, hout] at heval
  have heval2 : selectTools perf code ctx
      = Except.ok (if RTool.validator ∈ out then out
          else out ++ [RTool.validator]) := heval
  by_cases hvin : RTool.validator ∈ out
  · rw [if_pos hvin] at heval2
    exact ⟨out, heval2, houtne, hvin, top, rest, hsort, htop⟩
  · rw [if_neg hvin] at heval2
    exact ⟨out ++ [RTool.validator], heval2, by simp, by simp, top, rest, hsort, htop⟩

/-- **C10 witness**: at the empty performance table, the empty input and
the empty context, the selector succeeds with a non-empty,
validator-containing selection. -/
theorem c10_selector_total_witness :
    ∃ sel, selectTools [] "" [] = .ok sel ∧ sel ≠ [] ∧
      RTool.validator ∈ sel ∧
      ∃ top rest, sortScoredDesc (toolScores [] "" []) = top :: rest ∧
        14/25 ≤ top.2 :=
  c10_selector_total [] "" [] (by simp)
